import Mathlib

set_option maxRecDepth 100000

/-!
Verification development for the Sequential Agent Queue workflow engine.

The definitions below are a shallow embedding of the JavaScript sources:
  - `queue.js` (dependency sorter, workflow validation, stage executor,
    workflow scheduler, iteration controller, evidence validator),
  - `error-handler.js` (error classification and retry decision),
  - `persistence.js` (workflow state store operations).

Modelling conventions, used consistently below:
  - JavaScript strings are Lean `String`s; case-insensitive regex tests whose
    patterns are plain alternations of literals are modelled as
    case-insensitive substring tests.
  - JavaScript numbers that hold integral quantities are `Nat` or `Int`
    (timestamps are `Int` milliseconds).
  - A JavaScript object field that a function may leave unassigned is an
    `Option`; reading an absent field yields `none`, mirroring `undefined`.
    JavaScript truthiness of an optional string (undefined and "" are falsy)
    is `truthyStr`.
  - External collaborators (the agent spawner, the session poller, the file
    system, `JSON.parse`, the regex engine for the one unbounded-text regex)
    are oracle parameters; everything the repository itself computes is
    translated directly.
  - `while` loops are fuel-indexed structural recursions; the fuel bounds are
    proved sufficient, so the distinguished fuel-exhaustion results are
    unreachable under the documented preconditions.
-/

/-! ## Basic string helpers -/

/-- Lowercased character sequence of a string (`s.toLowerCase()`). -/
def lowerL (s : String) : List Char :=
  s.data.map Char.toLower

/-- Case-insensitive substring test: models `/lit/i.test(s)` for a literal
pattern `lit`, and `String.includes`-style checks. -/
def ciContains (hay needle : String) : Bool :=
  decide (lowerL needle <:+: lowerL hay)

/-- Truthiness of an optional JavaScript string: `undefined` and `""` are
falsy, every other string is truthy. -/
def truthyStr : Option String → Bool
  | none => false
  | some s => s ≠ ""

/-! ## Data model: stages and workflows (queue.js §Data Model) -/

/-- Stage definition. `contextFromThrows = some m` models a `contextFrom`
callback that throws with message `m` when invoked (the callback's successful
value only feeds the spawned task text, which the attempt oracle absorbs). -/
structure Stage where
  name : String
  task : String := "task"
  dependencies : List String := []
  agentId : Option String := none
  timeoutMinutes : Option Nat := none
  retries : Option Nat := none
  contextFromThrows : Option String := none

/-- Workflow definition as consumed by `executeWorkflow`. -/
structure Workflow where
  name : String
  stages : List Stage
  stopOnError : Option Bool := none
  retryOnFailure : Option Nat := none
  stageTimeoutMinutes : Option Nat := none
  iterationEnabled : Option Bool := none
  maxIterations : Option Nat := none

/-- Names of the workflow's stages, in definition order. -/
def stageNames (stages : List Stage) : List String :=
  stages.map (fun s => s.name)

/-- Dependencies of the stage named `v` (the unique such stage when names are
distinct; `find?` mirrors `findIndex` on the stage array). -/
def depsOf (stages : List Stage) (v : String) : List String :=
  match stages.find? (fun s => s.name = v) with
  | some s => s.dependencies
  | none => []

/-- Direct dependency relation: `depRel stages u v` holds when the stage named
`v` lists `u` among its dependencies. -/
def depRel (stages : List Stage) (u v : String) : Prop :=
  u ∈ depsOf stages v

/-! ## Dependency graph sorter (queue.js, `topologicalSort`, lines 46-95) -/

/-- Adjacency list: `adjOf stages u` lists, with multiplicity and in stage
definition order, the names of stages that depend on `u` — exactly the pushes
performed by the edge-building loop `adj[dep].push(stage.name)`. -/
def adjOf (stages : List Stage) (u : String) : List String :=
  stages.flatMap (fun s => (s.dependencies.filter (fun d => d = u)).map (fun _ => s.name))

/-- Initial indegree of `v`: one per dependency occurrence of the stage named
`v`, exactly the increments `indegree[stage.name]++`. -/
def indeg0 (stages : List Stage) (v : String) : Int :=
  (depsOf stages v).length

/-- Inner body of `for (const neighbor of adj[current])`: decrement each
neighbor's indegree and enqueue it when the decremented value is zero. -/
def processNeighbors : List String → (String → Int) → List String → (String → Int) × List String
  | [], indeg, queue => (indeg, queue)
  | w :: ws, indeg, queue =>
      let d := indeg w - 1
      let indeg2 : String → Int := fun x => if x = w then d else indeg x
      let queue2 := if d = 0 then queue ++ [w] else queue
      processNeighbors ws indeg2 queue2

/-- Kahn's-algorithm `while (queue.length > 0)` loop. The `visited` set of the
source is always exactly the set of emitted names, so the membership test
`visited.has(current)` is modelled as `result.contains current`. The loop pops
the queue head (`queue.shift()`), errors on a revisit, otherwise emits the
name and processes its neighbors. Each non-erroring iteration emits a fresh
name, so `stages.length + 1` fuel is enough (proved below). -/
def kahnLoop (adj : String → List String) :
    Nat → List String → (String → Int) → List String → Except String (List String)
  | _, [], _, result => .ok result
  | 0, _ :: _, _, _ => .error "[model] kahn fuel exhausted"
  | fuel + 1, current :: rest, indeg, result =>
      if result.contains current then
        .error ("Circular dependency detected: " ++ current)
      else
        let step := processNeighbors (adj current) indeg rest
        kahnLoop adj fuel step.2 step.1 (result ++ [current])

/-- Error text of the post-loop cycle report. -/
def circularErrorMsg (remaining : List String) : String :=
  "Circular dependency detected involving: " ++ String.intercalate ", " remaining

/-- Topological sort of the stage graph (`topologicalSort` in queue.js).
Faithful for inputs whose dependency names all resolve to defined stages (the
only inputs that reach the sorter through `executeWorkflow`, which validates
first; on an unknown dependency the JavaScript would instead fail while
building `adj`). -/
def topologicalSort (stages : List Stage) : Except String (List String) :=
  let names := stageNames stages
  let queue0 := names.filter (fun n => indeg0 stages n = 0)
  match kahnLoop (adjOf stages) (stages.length + 1) queue0 (indeg0 stages) [] with
  | .error e => .error e
  | .ok result =>
      if result.length ≠ names.length then
        .error (circularErrorMsg (names.filter (fun n => !(result.contains n))))
      else
        .ok result

/-! ## Workflow validation (queue.js, `validateWorkflow`, lines 100-166) -/

/-- Validation of a workflow definition. The JavaScript type checks
(`typeof x !== 'string'` and friends) are enforced by the Lean types; the
value-level checks — empty name (falsy string), empty stage list, empty
per-stage name or task, duplicate names, unknown dependencies — are modelled
directly, accumulating errors in source order. -/
def validateWorkflow (wf : Workflow) : Bool × List String :=
  let nameErrs := if wf.name = "" then ["workflow.name is required and must be a string"] else []
  let stagesErrs :=
    if wf.stages.length = 0 then ["workflow.stages must have at least one stage"] else []
  let perStage := wf.stages.flatMap (fun s =>
    (if s.name = "" then ["stage.name is required and must be a string"] else []) ++
    (if s.task = "" then ["stage.task is required and must be a string"] else []) ++
    (if 1 < (wf.stages.filter (fun t => t.name = s.name)).length then
      ["Duplicate stage name: " ++ s.name] else []))
  let depErrs := wf.stages.flatMap (fun s =>
    (s.dependencies.filter (fun d => !((stageNames wf.stages).contains d))).map
      (fun d => "Stage \"" ++ s.name ++ "\" depends on unknown stage: \"" ++ d ++ "\""))
  let errors := nameErrs ++ stagesErrs ++ perStage ++ depErrs
  (errors.isEmpty, errors)

/-! ## Error classifier and retry decision (error-handler.js) -/

/-- Error taxonomy of `ERROR_TYPES`. -/
inductive ErrorType where
  | timeout
  | resource_exhausted
  | invalid_input
  | network_error
  | agent_spawn_failed
  | validation_failed
  | abandoned_stage
  | unknown
deriving DecidableEq, Repr

/-- Retryability table `RETRYABILITY`. -/
def retryability : ErrorType → Bool
  | .timeout => true
  | .resource_exhausted => true
  | .network_error => true
  | .agent_spawn_failed => true
  | .invalid_input => false
  | .validation_failed => false
  | .abandoned_stage => false
  | .unknown => false

/-- Classification result of `classifyError` (the `metadata.message` field
just echoes the input and is omitted). -/
structure Classification where
  type : ErrorType
  retryable : Bool
  suggestion : String
deriving DecidableEq, Repr

/-- True when any of the literal alternatives of a case-insensitive regex
matches somewhere in the message. -/
def matchAny (message : String) (pats : List String) : Bool :=
  pats.any (fun p => ciContains message p)

/-- Classifier `classifyError` of error-handler.js: the patterns are tested in
source order and the first match wins. Every pattern is an alternation of
literals, modelled as case-insensitive substring tests. -/
def classifyError (message : String) : Classification :=
  if matchAny message ["timeout", "exceeded", "time limit"] then
    ⟨.timeout, retryability .timeout,
      "Consider increasing stageTimeoutMinutes in workflow configuration"⟩
  else if matchAny message ["memory", "disk", "space", "resource", "exhausted", "heap"] then
    ⟨.resource_exhausted, retryability .resource_exhausted,
      "Check system resources and consider reducing workflow complexity"⟩
  else if matchAny message ["invalid", "validation", "format", "schema", "parse", "syntax"] then
    ⟨.invalid_input, retryability .invalid_input,
      "Review workflow configuration and stage definitions for errors"⟩
  else if matchAny message
      ["network", "connection", "fetch", "request", "ECONNREFUSED", "ETIMEDOUT", "ENOTFOUND"] then
    ⟨.network_error, retryability .network_error, "Check network connectivity and retry"⟩
  else if matchAny message ["spawn", "agent", "session"] then
    ⟨.agent_spawn_failed, retryability .agent_spawn_failed,
      "Check OpenClaw Gateway status and try fallback spawner"⟩
  else if matchAny message ["evidence", "validation", "proof", "verify"] then
    ⟨.validation_failed, retryability .validation_failed,
      "Review agent output for proper evidence and verification"⟩
  else if matchAny message ["abandoned"] then
    ⟨.abandoned_stage, retryability .abandoned_stage,
      "Agent failed without producing output - may require manual review"⟩
  else
    ⟨.unknown, retryability .unknown, "Review error details and logs for more information"⟩

/-- JavaScript string value of an error type (used in decision reasons). -/
def errorTypeName : ErrorType → String
  | .timeout => "timeout"
  | .resource_exhausted => "resource_exhausted"
  | .invalid_input => "invalid_input"
  | .network_error => "network_error"
  | .agent_spawn_failed => "agent_spawn_failed"
  | .validation_failed => "validation_failed"
  | .abandoned_stage => "abandoned_stage"
  | .unknown => "unknown"

/-- Action field of a retry decision. -/
inductive RecAction where
  | retry
  | halt
deriving DecidableEq, Repr

/-- Decision of `decideRecoveryAction`. -/
structure RecoveryDecision where
  action : RecAction
  reason : String
deriving DecidableEq, Repr

/-- Retry-or-halt decision `decideRecoveryAction(classification, {attempt,
maxRetries})`: halt when not retryable, halt when `attempt >= maxRetries + 1`,
otherwise retry. -/
def decideRecoveryAction (c : Classification) (attempt maxRetries : Nat) : RecoveryDecision :=
  if !c.retryable then
    ⟨.halt, errorTypeName c.type ++ " is not retryable"⟩
  else if maxRetries + 1 ≤ attempt then
    ⟨.halt, "Maximum retry attempts exhausted"⟩
  else
    ⟨.retry, errorTypeName c.type ++ " is retryable, attempting recovery"⟩

/-- The `shouldRetry` flag returned by `handleWorkflowError`: classify the
error, then decide, then compare the decided action with `'retry'`. (Recovery
actions only log, wait, or adjust delays; they never change the decision.) -/
def handleErrorShouldRetry (message : String) (attempt maxRetries : Nat) : Bool :=
  (decideRecoveryAction (classifyError message) attempt maxRetries).action = .retry

/-- Error message produced by the abandonment check in `executeStage`
(queue.js line 696). -/
def abandonedMessage (stageName : String) : String :=
  "Stage \"" ++ stageName ++ "\" was abandoned: session inactive but no output generated"

/-! ## Evidence validator (queue.js, `validateCompletionEvidence`, lines 374-498) -/

/-- Stat result for a file: modification time (epoch ms), size, content. -/
structure FileInfo where
  mtimeMs : Int
  size : Nat
  content : String
deriving DecidableEq

/-- File-system snapshot seen by the validator: `stat` is `fs.stat` /
`fs.access` / `fs.readFile` combined (`none` = ENOENT), `cwd` is
`process.cwd()`. -/
structure FsModel where
  stat : String → Option FileInfo
  cwd : String

/-- Absolute-path test `path.isAbsolute(p)` (posix: leading slash). -/
def isAbsolutePath (p : String) : Bool :=
  p.data.take 1 = ['/']

/-- Resolution `path.isAbsolute(p) ? p : path.join(process.cwd(), p)`. -/
def resolvePath (fsm : FsModel) (p : String) : String :=
  if isAbsolutePath p then p else fsm.cwd ++ "/" ++ p

/-- Fields of the extracted `completionEvidence` object that the validator
reads (`evidenceType`, `testResults`, … are never inspected). -/
structure EvPayload where
  filePath : Option String := none
  fixLog : Option String := none
deriving DecidableEq

/-- Outcome of the JSON-extraction step (the regex
`/\x7b[\s\S]*"evidenceType"[\s\S]*\x7d/` followed by `JSON.parse`): no match,
a parse failure with its message, or a parsed payload. The extraction is a
pure function of the raw output text, computed by external engines (regex and
`JSON.parse`), so it enters the model as an input. -/
inductive EvExtract where
  | noMatch
  | parseError (msg : String)
  | parsed (ev : EvPayload)
deriving DecidableEq

/-- Fake-verification marker phrases (each `/phrase/i`). -/
def fakeMarkers : List String :=
  ["i checked", "looks good", "seems fine", "probably fine", "should work", "verified mentally"]

/-- Match a literal character prefix, returning the remainder. -/
def stripPrefixCh : List Char → List Char → Option (List Char)
  | [], cs => some cs
  | _ :: _, [] => none
  | p :: ps, c :: cs => if c = p then stripPrefixCh ps cs else none

/-- True when the position predicate holds at some suffix of the text. -/
def scanAny (p : List Char → Bool) : List Char → Bool
  | [] => p []
  | l@(_ :: rest) => p l || scanAny p rest

/-- Position match for `pre` followed by `\s*` then at least one digit
(the `/passed:\s*\d+/i` and `/failed:\s*\d+/i` shapes, on lowercased text). -/
def matchCountAt (pre : List Char) (cs : List Char) : Bool :=
  match stripPrefixCh pre cs with
  | some rest =>
      match rest.dropWhile Char.isWhitespace with
      | c :: _ => c.isDigit
      | [] => false
  | none => false

/-- Position match for `:` then `\s*` then at least one digit. -/
def colonSpacesDigit (cs : List Char) : Bool :=
  match cs with
  | ':' :: rest =>
      (match rest.dropWhile Char.isWhitespace with
       | c :: _ => c.isDigit
       | [] => false)
  | _ => false

/-- Tail of the `/tests?\s+rung?:\s*\d+/i` pattern after the `tests?` part:
one-or-more whitespace, `run`, optional `g`, then `:\s*\d`. -/
def runPart (cs : List Char) : Bool :=
  match cs with
  | c :: rest =>
      if c.isWhitespace then
        let r := rest.dropWhile Char.isWhitespace
        match stripPrefixCh "run".data r with
        | none => false
        | some r2 =>
            (match r2 with
             | 'g' :: t => colonSpacesDigit t
             | _ => false) || colonSpacesDigit r2
      else false
  | [] => false

/-- Position match for `/tests?\s+rung?:\s*\d+/i` (with backtracking over the
optional `s`), on lowercased text. -/
def matchTestsRunAt (cs : List Char) : Bool :=
  match stripPrefixCh "test".data cs with
  | none => false
  | some r1 =>
      (match r1 with
       | 's' :: t => runPart t
       | _ => false) || runPart r1

/-- Test-output detection `testMarkers.some(m => m.test(content))`, with the
five markers in source order: `/passed:\s*\d+/i`, `/failed:\s*\d+/i`,
`/✓|✔|pass|fail/i`, `/tests?\s+rung?:\s*\d+/i`, `/PASS|FAIL/gi`. -/
def hasTestOutput (content : String) : Bool :=
  let low := lowerL content
  scanAny (matchCountAt "passed:".data) low ||
  scanAny (matchCountAt "failed:".data) low ||
  (ciContains content "✓" || ciContains content "✔" ||
    ciContains content "pass" || ciContains content "fail") ||
  scanAny matchTestsRunAt low ||
  (ciContains content "pass" || ciContains content "fail")

/-- Conventional fix-log path used for documentation stages lacking an
explicit `fixLog`. -/
def defaultFixLogPath : String :=
  "/home/optimistprime/.openclaw/workspace/skills/sequential-agent-queue/fix-log-enhancement.md"

/-- Result shape `\x7bvalid, evidence, errors\x7d` of the validator. -/
structure ValidationResult where
  valid : Bool
  evidence : Option EvPayload
  errors : List String
deriving DecidableEq

/-- Validator `validateCompletionEvidence(output, stageName, isDocStage)`.
`extract` is the outcome of the JSON-extraction step on `output`; `now` is the
`Date.now()` reading taken during the file-age check; `fsm` is the file-system
snapshot. Errors accumulate in source order: missing-fields, then (file
present) missing-file / too-recent / empty / fake-marker / no-test-output,
then missing fix log; `valid` iff no errors. -/
def validateCompletionEvidence (fsm : FsModel) (now : Int) (extract : EvExtract)
    (isDocStage : Bool) : ValidationResult :=
  match extract with
  | .noMatch =>
      { valid := false, evidence := none,
        errors := ["No completionEvidence object found in agent output"] }
  | .parseError m =>
      { valid := false, evidence := none,
        errors := ["Failed to parse evidence JSON: " ++ m] }
  | .parsed ev =>
      let e1 : List String :=
        if !isDocStage && !truthyStr ev.filePath && !truthyStr ev.fixLog then
          ["Evidence missing required fields: filePath or fixLog"]
        else []
      let e2 : List String :=
        match ev.filePath with
        | none => []
        | some p =>
            if p = "" then []
            else
              match fsm.stat (resolvePath fsm p) with
              | none => ["Evidence file does not exist: " ++ p]
              | some fi =>
                  let ageMs := now - fi.mtimeMs
                  let eAge :=
                    if ageMs < 100 then
                      ["Evidence file created too recently (" ++ toString ageMs ++
                        "ms), appears fake: " ++ p]
                    else []
                  let eSize := if fi.size = 0 then ["Evidence file is empty: " ++ p] else []
                  let eFake :=
                    if fi.content.length < 200 then
                      match fakeMarkers.find? (fun mk => ciContains fi.content mk) with
                      | some mk =>
                          ["Evidence contains fake verification marker: \"/" ++ mk ++
                            "/i\" in " ++ p]
                      | none => []
                    else []
                  let eTest :=
                    if !isDocStage && !hasTestOutput fi.content then
                      ["Evidence file lacks actual test output: " ++ p]
                    else []
                  eAge ++ eSize ++ eFake ++ eTest
      let e3 : List String :=
        if truthyStr ev.fixLog || isDocStage then
          let flp := if isDocStage && !truthyStr ev.fixLog then defaultFixLogPath
                     else ev.fixLog.getD ""
          match fsm.stat (resolvePath fsm flp) with
          | none => ["Fix log does not exist: " ++ flp]
          | some _ => []
        else []
      let errs := e1 ++ e2 ++ e3
      { valid := errs.isEmpty, evidence := some ev, errors := errs }

/-! ## Stage results and the stage executor (queue.js, `executeStage`) -/

/-- Status values a Stage Result can carry. -/
inductive StageStatus where
  | pending
  | complete
  | failed
  | skipped
deriving DecidableEq, Repr

/-- Error detail of a failed Stage Result as recorded by the scheduler:
`\x7bmessage, attempts\x7d`. -/
structure ErrInfo where
  message : String
  attempts : Nat
deriving DecidableEq

/-- Stage Result. Each field is an `Option` when some code path leaves it
unassigned; in particular `transcript` is present because `checkCriticalGaps`
reads it, yet no constructor of stage results ever assigns it (the executor
assigns `sessionTranscript` instead), mirroring the JavaScript objects.
Wall-clock fields (`startTime`, `endTime`, `duration`) are abstracted to a
constant 0 duration. -/
structure StageResult where
  status : StageStatus
  output : Option String := none
  file : Option String := none
  duration : Nat := 0
  attempts : Option Nat := none
  sessionId : Option String := none
  evidence : Option EvPayload := none
  transcript : Option String := none
  sessionTranscript : Option String := none
  error : Option ErrInfo := none
  reason : Option String := none
  unmetDependencies : Option (List String) := none
deriving DecidableEq

/-- Outcome of one attempt body of `executeStage` (spawn, completion wait,
abandonment check, output save, evidence validation, git commit): either some
step threw with the given message, or the attempt reached the result-assembly
point with the recorded data. Each attempt invokes the spawner exactly once. -/
inductive AttemptOutcome where
  | failure (message : String)
  | success (output : String) (outputFile : String) (sessionId : Option String)
      (sessionTranscript : Option String) (evidence : Option EvPayload)
deriving DecidableEq

/-- Effective retry limit:
`stage.retries !== undefined ? stage.retries : (workflow.retryOnFailure || 0)`. -/
def effMaxRetries (stage : Stage) (wf : Workflow) : Nat :=
  match stage.retries with
  | some r => r
  | none => wf.retryOnFailure.getD 0

/-- Message of the thrown error report after the retry loop ends without a
success (`JSON.stringify(errorReport)`); its `attempts` field is always
`maxRetries + 1`. -/
def errorReportMessage (stageName : String) (attempts : Nat) (lastError : String) : String :=
  "\x7b\"stage\":\"" ++ stageName ++ "\",\"attempts\":" ++ toString attempts ++
    ",\"lastError\":\"" ++ lastError ++ "\"\x7d"

/-- Retry loop `for (attempt = 1; attempt <= maxRetries + 1; attempt++)` of
`executeStage`, with the enhancement modules loaded (as the deployment
intends), so the retry-or-halt decision is `handleWorkflowError`'s
`shouldRetry`. On success the assembled result records `attempts := attempt`;
`transcript` is never assigned. Returns the result (or thrown report) and the
number of spawner invocations. The first argument of the pair of `Nat`s is the
remaining attempt budget, kept equal to `maxRetries + 2 - attempt`; the
zero-budget case is unreachable because the decision at
`attempt = maxRetries + 1` is always halt. -/
def stageLoop (att : Nat → AttemptOutcome) (stageName : String) (maxRetries : Nat) :
    Nat → Nat → String → (Except String StageResult) × Nat
  | 0, _, lastErr => (.error (errorReportMessage stageName (maxRetries + 1) lastErr), 0)
  | remaining + 1, attempt, _ =>
      match att attempt with
      | .success out file sid str ev =>
          (.ok { status := .complete, output := some out, file := some file,
                 attempts := some attempt, sessionId := sid, evidence := ev,
                 sessionTranscript := str }, 1)
      | .failure msg =>
          if handleErrorShouldRetry msg attempt maxRetries then
            let rec2 := stageLoop att stageName maxRetries remaining (attempt + 1) msg
            (rec2.1, rec2.2 + 1)
          else
            (.error (errorReportMessage stageName (maxRetries + 1) msg), 1)

/-- Stage executor `executeStage(stage, workflow, stageOutputs, context,
agentSpawner)`. A throwing `contextFrom` callback fails the stage before any
attempt; otherwise the retry loop runs with a budget of `maxRetries + 1`
attempts starting at attempt 1. The pair's second component counts spawner
invocations. -/
def executeStage (att : Nat → AttemptOutcome) (stage : Stage) (wf : Workflow) :
    (Except String StageResult) × Nat :=
  let maxRetries := effMaxRetries stage wf
  match stage.contextFromThrows with
  | some m =>
      (.error ("contextFrom callback failed for stage \"" ++ stage.name ++ "\": " ++ m), 0)
  | none => stageLoop att stage.name maxRetries (maxRetries + 1) 1 ""

/-! ## Iteration gap check (queue.js, `checkCriticalGaps`, lines 1217-1273) -/

/-- One entry of the `gaps` array of an evidence file. -/
structure Gap where
  priority : String
  status : Option String
deriving DecidableEq

/-- Parsed content of an evidence file, as far as `checkCriticalGaps` reads
it: the optional `gaps` array (`none` also covers a non-array value). -/
structure GapsDoc where
  gaps : Option (List Gap)
deriving DecidableEq

/-- Return shape of `checkCriticalGaps`. The source returns the bare boolean
`false` from the entry guard and objects elsewhere; the caller only reads
`.hasCriticalGaps`, which on the bare `false` is `undefined` (falsy), so both
shapes are modelled as a record with `hasCriticalGaps := false`. -/
structure GapCheck where
  hasCriticalGaps : Bool
  count : Nat := 0
  gaps : Option (List Gap) := none
  fromTranscript : Bool := false
deriving DecidableEq

/-- Criticality filter on a gap: priority `HIGH` and a truthy status not in
the resolved set (compared lowercased). -/
def isCriticalGap (g : Gap) : Bool :=
  g.priority = "HIGH" && truthyStr g.status &&
    !(["resolved", "deferred", "mitigated", "accepted-risk"].any
        (fun t => lowerL (g.status.getD "") = t.data))

/-- External collaborators of a workflow run: `att` gives the attempt-body
outcome per (iteration, stage name, attempt number); `readGapsFile` models
`readFileSync` + `JSON.parse` on an evidence file (`none` = the read or parse
threw); `transcriptGapMatches` models the match count of the transcript
fallback regex `/gap[^\n]+?high|high[^\n]+?gap|critical[^\n]+?gap|priority:\s*high/gi`
(0 = `null`). -/
structure WEnv where
  att : Nat → String → Nat → AttemptOutcome
  readGapsFile : String → Option GapsDoc
  transcriptGapMatches : String → Nat

/-- Gap analysis of the last stage's output (`checkCriticalGaps`). The entry
guard requires a truthy `stageOutput.transcript` AND a truthy
`stageOutput.evidence`; inside the `try`, a readable evidence file whose
`gaps` array has critical entries yields an early positive answer, otherwise
control falls through to the transcript-count fallback; any file-read or
parse throw lands in the `catch`, which reports no critical gaps. -/
def checkCriticalGaps (env : WEnv) (stageOutput : Option StageResult) : GapCheck :=
  match stageOutput with
  | none => { hasCriticalGaps := false }
  | some so =>
      if !truthyStr so.transcript || so.evidence.isNone then
        { hasCriticalGaps := false }
      else
        let fileStep : Except Unit (Option GapCheck) :=
          match so.evidence with
          | none => .ok none
          | some ev =>
              match ev.filePath with
              | none => .ok none
              | some fp =>
                  if fp = "" then .ok none
                  else
                    match env.readGapsFile fp with
                    | none => .error ()
                    | some doc =>
                        match doc.gaps with
                        | none => .ok none
                        | some gaps =>
                            let criticalGaps := gaps.filter isCriticalGap
                            if 0 < criticalGaps.length then
                              .ok (some { hasCriticalGaps := true,
                                          count := criticalGaps.length,
                                          gaps := some criticalGaps })
                            else .ok none
        match fileStep with
        | .error _ => { hasCriticalGaps := false }
        | .ok (some g) => g
        | .ok none =>
            let transcriptStr := so.transcript.getD ""
            let n := env.transcriptGapMatches transcriptStr
            if 2 < n then
              { hasCriticalGaps := true, count := n, fromTranscript := true }
            else
              { hasCriticalGaps := false }

/-! ## Workflow scheduler and iteration controller (queue.js, `executeWorkflow`) -/

/-- Lookup in the stage-outputs map (`stageOutputs[name]`). -/
def lookupSR (m : List (String × StageResult)) (k : String) : Option StageResult :=
  (m.find? (fun p => p.1 = k)).map (fun p => p.2)

/-- Assignment `stageOutputs[name] = result` (newest binding shadows). -/
def setSR (m : List (String × StageResult)) (k : String) (v : StageResult) :
    List (String × StageResult) :=
  (k, v) :: m

/-- One Iteration Record appended to `context.previousIterations` before a
restart. -/
structure IterRecord where
  iteration : Nat
  stageOutputs : List (String × StageResult)
  gaps : Option (List Gap)
deriving DecidableEq

/-- The parts of the opaque `context` argument that `executeWorkflow` itself
reads and writes: `context.iteration || 0` and `context.previousIterations`.
Fresh runs are modelled (no `context.workflowId`, so the resume branch of the
source is not taken). -/
structure Ctx where
  iteration : Nat := 0
  previousIterations : List IterRecord := []
deriving DecidableEq

/-- Effective iteration cap `workflow.maxIterations || 3` (note `0` is falsy
and also falls back to 3). -/
def effMaxIterations (wf : Workflow) : Nat :=
  match wf.maxIterations with
  | some m => if m = 0 then 3 else m
  | none => 3

/-- Effective `stopOnError` (default true). -/
def effStopOnError (wf : Workflow) : Bool :=
  wf.stopOnError.getD true

/-- Effective `iterationEnabled` (`workflow.iterationEnabled !== false`). -/
def effIterationEnabled (wf : Workflow) : Bool :=
  wf.iterationEnabled ≠ some false

/-- Per-stage loop of `executeWorkflow`: walk the execution order; skip a
stage whose dependencies are not all complete; otherwise execute it, record
the result, and on failure either break (`stopOnError`) or continue. The
accumulators are the stage-outputs map, the `failedStage` variable, and the
spawner-invocation count. A name missing from the stage list returns early
(the JavaScript would fail on `stage.dependencies` of `undefined`; the
execution order always consists of stage names). The failed entry's
`error.attempts` value `stage.retries !== undefined ? stage.retries + 1 :
(workflow.retryOnFailure || 0) + 1` is exactly `effMaxRetries stage wf + 1`
and is written as such. -/
def runStages (env : WEnv) (wf : Workflow) (iter : Nat) (stopOnError : Bool) :
    List String → List (String × StageResult) → Option String → Nat →
    List (String × StageResult) × Option String × Nat
  | [], m, failed, spawns => (m, failed, spawns)
  | stageName :: rest, m, failed, spawns =>
      match wf.stages.find? (fun s => s.name = stageName) with
      | none => (m, failed, spawns)
      | some stage =>
          let unmet := stage.dependencies.filter (fun dep =>
            match lookupSR m dep with
            | none => true
            | some r => r.status ≠ .complete)
          if !unmet.isEmpty then
            runStages env wf iter stopOnError rest
              (setSR m stageName
                { status := .skipped, reason := some "Unmet dependencies",
                  unmetDependencies := some unmet, attempts := some 0 })
              failed spawns
          else
            let ex := executeStage (env.att iter stageName) stage wf
            match ex.1 with
            | .ok r =>
                runStages env wf iter stopOnError rest (setSR m stageName r) failed
                  (spawns + ex.2)
            | .error msg =>
                let m2 := setSR m stageName
                  { status := .failed, error := some ⟨msg, effMaxRetries stage wf + 1⟩ }
                if stopOnError then (m2, some stageName, spawns + ex.2)
                else runStages env wf iter stopOnError rest m2 (some stageName) (spawns + ex.2)

/-- Iteration block of the aggregate result. -/
structure IterationInfo where
  current : Nat
  max : Nat
  enabled : Bool
  status : Option String
  previousIterations : List IterRecord
deriving DecidableEq

/-- Aggregate result returned by `executeWorkflow` (`totalDuration` abstracted
to 0; `workflowId` is persistence plumbing and omitted). -/
structure WorkflowResult where
  success : Bool
  workflow : String
  stages : List (String × StageResult)
  totalDuration : Nat
  failedStage : Option String
  executionOrder : List String
  iteration : IterationInfo
deriving DecidableEq

/-- Outcome of one pass of `executeWorkflow`'s body: either a returned value
(or thrown error) with the spawner-invocation count and the number of
scheduler passes that ran stages (0 when validation or the sorter failed,
else 1), or a restart request carrying the augmented context. -/
inductive PassOut where
  | done (res : Except String WorkflowResult) (spawns passes : Nat)
  | restart (newCtx : Ctx) (spawns : Nat)

/-- One pass of `executeWorkflow`: validate, sort, run the stage loop, then
the iteration controller: when the pass succeeded and iteration is enabled and
the counter is under the cap, gap-check the last stage's output and request a
restart with the counter incremented and an Iteration Record appended;
otherwise report `no-gaps` / `reached-max` / `not-enabled`. -/
def runPassOnce (env : WEnv) (wf : Workflow) (ctx : Ctx) : PassOut :=
  let v := validateWorkflow wf
  if !v.1 then
    .done (.error ("Invalid workflow: " ++ String.intercalate ", " v.2)) 0 0
  else
    match topologicalSort wf.stages with
    | .error e => .done (.error e) 0 0
    | .ok order =>
        let stopOnError := effStopOnError wf
        let iterationEnabled := effIterationEnabled wf
        let maxIterations := effMaxIterations wf
        let currentIteration := ctx.iteration
        let run := runStages env wf currentIteration stopOnError order [] none 0
        let m := run.1
        let failedStage := run.2.1
        let spawns := run.2.2
        let success := failedStage.isNone && !(m.any (fun p => p.2.status = .failed))
        let mkRes : String → PassOut := fun st =>
          .done (.ok { success := success, workflow := wf.name, stages := m,
                       totalDuration := 0, failedStage := failedStage,
                       executionOrder := order,
                       iteration := { current := currentIteration, max := maxIterations,
                                      enabled := iterationEnabled, status := some st,
                                      previousIterations := ctx.previousIterations } })
            spawns 1
        if success && iterationEnabled then
          if currentIteration < maxIterations then
            let lastOut := order.getLast?.bind (fun ls => lookupSR m ls)
            let gapCheck := checkCriticalGaps env lastOut
            if gapCheck.hasCriticalGaps then
              .restart
                { iteration := currentIteration + 1,
                  previousIterations := ctx.previousIterations ++
                    [{ iteration := currentIteration, stageOutputs := m,
                       gaps := gapCheck.gaps }] }
                spawns
            else mkRes "no-gaps"
          else mkRes "reached-max"
        else mkRes "not-enabled"

/-- Recursive restarts of `executeWorkflow` (the source re-invokes itself with
the augmented context). `fuel` bounds the number of restarts; each restart
increments `ctx.iteration`, which must stay under the cap for a further
restart, so `effMaxIterations wf + 1` fuel is enough. Returns the result, the
total spawner-invocation count, and the number of scheduler passes. -/
def executeWorkflowAux (env : WEnv) (wf : Workflow) :
    Nat → Ctx → (Except String WorkflowResult) × Nat × Nat
  | 0, ctx =>
      match runPassOnce env wf ctx with
      | .done res sp p => (res, sp, p)
      | .restart _ sp => (.error "[model] iteration fuel exhausted", sp, 1)
  | fuel + 1, ctx =>
      match runPassOnce env wf ctx with
      | .done res sp p => (res, sp, p)
      | .restart newCtx sp =>
          let rec2 := executeWorkflowAux env wf fuel newCtx
          (rec2.1, sp + rec2.2.1, 1 + rec2.2.2)

/-- Entry point `executeWorkflow(workflow, context, agentSpawner)`. -/
def executeWorkflow (env : WEnv) (wf : Workflow) (ctx : Ctx) :
    (Except String WorkflowResult) × Nat × Nat :=
  executeWorkflowAux env wf (effMaxIterations wf + 1) ctx

/-! ## Workflow state store (persistence.js) -/

/-- Workflow status values of the persisted state. -/
inductive WStatus where
  | running
  | paused
  | completed
  | failed
  | cancelled
deriving DecidableEq

/-- Persisted Workflow State (schema of class `WorkflowState`; the generated
`workflowId` key is outside the record, timestamps are epoch ms). -/
structure WState where
  workflowName : String := ""
  startedAt : Int := 0
  lastUpdated : Int := 0
  status : WStatus := .running
  iteration : Nat := 0
  maxIterations : Nat := 3
  completedStages : List String := []
  failedStage : Option String := none
  pausedStage : Option String := none
  stageOutputs : List (String × StageResult) := []
  executionOrder : List String := []
  errorMessage : Option String := none
deriving DecidableEq

/-- Store operation `saveWorkflowState` (writes the snapshot; the only field
it mutates is `lastUpdated`). -/
def saveWorkflowState (st : WState) (now : Int) : WState :=
  { st with lastUpdated := now }

/-- Store operation `updateStageCompletion(workflowId, stageName, result)`:
append to `completedStages` if absent, clear a matching failed/paused marker,
record the output, clear the error message, and save. -/
def updateStageCompletion (st : WState) (stageName : String) (res : StageResult)
    (now : Int) : WState :=
  let st1 := { st with
    completedStages :=
      if st.completedStages.contains stageName then st.completedStages
      else st.completedStages ++ [stageName] }
  let st2 := { st1 with
    failedStage := if st1.failedStage = some stageName then none else st1.failedStage,
    pausedStage := if st1.pausedStage = some stageName then none else st1.pausedStage }
  saveWorkflowState
    { st2 with stageOutputs := setSR st2.stageOutputs stageName res,
               lastUpdated := now, errorMessage := none } now

/-- Store operation `updateStageFailure(workflowId, stageName, error)`. -/
def updateStageFailure (st : WState) (stageName : String) (errMsg : String)
    (now : Int) : WState :=
  saveWorkflowState
    { st with failedStage := some stageName, errorMessage := some errMsg,
              lastUpdated := now, status := .failed } now

/-- Store operation `markWorkflowCompleted(workflowId)`. -/
def markWorkflowCompleted (st : WState) (now : Int) : WState :=
  saveWorkflowState
    { st with status := .completed, lastUpdated := now,
              failedStage := none, pausedStage := none, errorMessage := none } now

/-- Store operation `resumeWorkflow(workflowId, workflow)` on a loaded state:
errors on completed/cancelled states, otherwise resets to running and clears
the paused/failed/error markers before saving. (The computed `resumeFromStage`
is advisory output and not part of the stored state.) -/
def resumeWorkflow (st : WState) (now : Int) : Except String WState :=
  if st.status = .completed then .error "Workflow is already completed"
  else if st.status = .cancelled then .error "Workflow was cancelled"
  else
    .ok (saveWorkflowState
      { st with status := .running, pausedStage := none,
                failedStage := none, errorMessage := none } now)

/-- Store operation `cancelWorkflow(workflowId)` on a loaded state: refuses on
completed (returns false, no change), is a no-op on already-cancelled, and
otherwise marks cancelled and saves. -/
def cancelWorkflow (st : WState) (now : Int) : Bool × WState :=
  if st.status = .completed then (false, st)
  else if st.status = .cancelled then (true, st)
  else (true, saveWorkflowState { st with status := .cancelled, lastUpdated := now } now)

/-- State-store invariant of claim C9: completed states carry no failure
markers. -/
def StateInv (st : WState) : Prop :=
  st.status = .completed → st.failedStage = none ∧ st.errorMessage = none

/-! ## Specification-side predicates used by the theorems -/

/-- Success test on an attempt outcome. -/
def attSucceeds : AttemptOutcome → Bool
  | .failure _ => false
  | .success _ _ _ _ _ => true

/-- Strict precedence in a list: `u` occurs in the part strictly before an
occurrence of `v`. -/
def Before (l : List String) (u v : String) : Prop :=
  ∃ p q, l = p ++ v :: q ∧ u ∈ p

/-- Emitted order respects dependencies: whoever appears in the list has all
its dependencies strictly earlier. -/
def DepClosed (stages : List Stage) (l : List String) : Prop :=
  ∀ v ∈ l, ∀ u ∈ depsOf stages v, Before l u v

/-- Loop invariant of Kahn's algorithm relating the pending queue, the
indegree table and the emitted prefix. -/
structure KInv (stages : List Stage) (queue : List String) (indeg : String → Int)
    (result : List String) : Prop where
  resNS : ∀ v ∈ result, v ∈ stageNames stages
  resNodup : result.Nodup
  qNS : ∀ v ∈ queue, v ∈ stageNames stages
  qNodup : queue.Nodup
  qRes : ∀ v ∈ queue, v ∉ result
  ideg : ∀ v, indeg v = ((depsOf stages v).filter (fun u => !(result.contains u))).length
  qZero : ∀ v ∈ queue, indeg v = 0
  zeroQ : ∀ v ∈ stageNames stages, v ∉ result → indeg v = 0 → v ∈ queue
  closed : DepClosed stages result

/-! ## Concrete inputs used by the closed theorems and witnesses -/

instance : Inhabited StageResult := ⟨{ status := .pending }⟩

instance : Inhabited WorkflowResult :=
  ⟨{ success := false, workflow := "", stages := [], totalDuration := 0,
     failedStage := none, executionOrder := [],
     iteration := { current := 0, max := 0, enabled := false, status := none,
                    previousIterations := [] } }⟩

/-- Empty fresh-run context. -/
def cCtx0 : Ctx := {}

/-- Gap entry of the C1 scenario: priority HIGH, status open. -/
def cGap1 : Gap := { priority := "HIGH", status := some "open" }

/-- Environment of the C1 scenario: every attempt succeeds with evidence
referencing `ev.json` and a session transcript; `ev.json` parses to a gaps
array with one HIGH/open gap. -/
def cEnv1 : WEnv :=
  { att := fun _ _ _ => .success "out" "f.txt" (some "sid") (some "transcript text")
      (some { filePath := some "ev.json", fixLog := none }),
    readGapsFile := fun p => if p = "ev.json" then some ⟨some [cGap1]⟩ else none,
    transcriptGapMatches := fun _ => 0 }

/-- Workflow of the C1 scenario: one stage, `maxIterations = 3`. -/
def cWf1 : Workflow := { name := "w", stages := [{ name := "s1" }], maxIterations := some 3 }

/-- Environment of the C2 scenario: every attempt succeeds plainly. -/
def cEnv2 : WEnv :=
  { att := fun _ _ _ => .success "out" "f.txt" none none none,
    readGapsFile := fun _ => none,
    transcriptGapMatches := fun _ => 0 }

/-- Workflow of the C2 scenario: one stage, `maxIterations = 3`. -/
def cWf2 : Workflow := { name := "w", stages := [{ name := "s1" }], maxIterations := some 3 }

/-- Context whose carried iteration counter already equals the cap. -/
def cCtx3 : Ctx := { iteration := 3 }

/-- Result of the C2 scenario run. -/
def c2result : WorkflowResult :=
  match (executeWorkflow cEnv2 cWf2 cCtx3).1 with
  | .ok r => r
  | .error _ => default

/-- Environment of the C4 scenario: the first attempt of every stage
succeeds. -/
def cEnv4 : WEnv :=
  { att := fun _ _ _ => .success "out" "f.txt" none none none,
    readGapsFile := fun _ => none,
    transcriptGapMatches := fun _ => 0 }

/-- Single stage of the C4 scenario (no retry overrides, so
`maxRetries = 0`). -/
def cStage4 : Stage := { name := "s1" }

/-- Workflow of the C4 scenario. -/
def cWf4 : Workflow := { name := "w", stages := [cStage4] }

/-- Result of the C4 scenario run. -/
def c4result : WorkflowResult :=
  match (executeWorkflow cEnv4 cWf4 cCtx0).1 with
  | .ok r => r
  | .error _ => default

/-- Terminal stage result of the C4 scenario. -/
def c4entry : StageResult := (lookupSR c4result.stages "s1").getD default

/-- Two-stage acyclic chain for the C5 witness: `B` depends on `A`. -/
def c5stages : List Stage := [{ name := "A" }, { name := "B", dependencies := ["A"] }]

/-- Cyclic workflow for the C6 witness: `X` and `Y` depend on each other. -/
def c6wf : Workflow :=
  { name := "w",
    stages := [{ name := "X", dependencies := ["Y"] }, { name := "Y", dependencies := ["X"] }] }

/-- File-system snapshot of the C7 scenario: one evidence file with content
`"PASS 3"`, modified at epoch instant 0. -/
def c7fs : FsModel :=
  { stat := fun p => if p = "/ev.txt" then some ⟨0, 6, "PASS 3"⟩ else none, cwd := "/w" }

/-- Extracted evidence of the C7 scenario. -/
def c7extract : EvExtract := .parsed { filePath := some "/ev.txt", fixLog := none }

/-- Environment of the C8/C10 scenario: stage `B` always fails with a
non-retryable (invalid-input) error, all other stages succeed. -/
def cEnv8 : WEnv :=
  { att := fun _ s _ =>
      if s = "B" then .failure "produced invalid data" else .success "out" "f.txt" none none none,
    readGapsFile := fun _ => none,
    transcriptGapMatches := fun _ => 0 }

/-- Workflow of the C8/C10 scenario: chain `A ← B ← C`. -/
def cWf8 : Workflow :=
  { name := "w",
    stages := [{ name := "A" }, { name := "B", dependencies := ["A"] },
               { name := "C", dependencies := ["B"] }] }

/-- Result of the C8/C10 scenario run. -/
def c8result : WorkflowResult :=
  match (executeWorkflow cEnv8 cWf8 cCtx0).1 with
  | .ok r => r
  | .error _ => default

/-- Failed-stage entry of the C8/C10 scenario. -/
def c8entryB : StageResult := (lookupSR c8result.stages "B").getD default

/-- Running persisted state used by the C9 witness. -/
def c9state : WState := { workflowName := "w", status := .running }

/-- Stage result used by the C9 witness. -/
def c9res : StageResult := { status := .complete }

/-! ## Theorems -/

/-- C1. In the scenario the claim describes — a successful pass with iteration
enabled, `currentIteration = 0 < maxIterations = 3`, and the last stage's
evidence file containing `gaps:[\x7bpriority:"HIGH", status:"open"\x7d]` — the
controller does NOT restart: `checkCriticalGaps` requires a truthy
`stageOutput.transcript`, but `executeStage` stores the transcript under
`sessionTranscript` and never assigns `transcript`, so the run reports
`no-gaps` with the counter still 0 and no Iteration Record appended, even
though the gap entry is critical by the controller's own filter. -/
theorem C1_gap_scenario_no_restart :
    ((executeWorkflow cEnv1 cWf1 cCtx0).1.toOption.map (fun r =>
        (r.iteration.status, r.iteration.current, r.iteration.previousIterations.length,
         r.success)) = some (some "no-gaps", 0, 0, true)) ∧
    (executeWorkflow cEnv1 cWf1 cCtx0).2.2 = 1 ∧
    cEnv1.readGapsFile "ev.json" = some ⟨some [cGap1]⟩ ∧
    isCriticalGap cGap1 = true ∧
    ((executeWorkflow cEnv1 cWf1 cCtx0).1.toOption.bind
        (fun r => lookupSR r.stages "s1")).map
      (fun r => (r.transcript, r.sessionTranscript, r.evidence)) =
      some (none, some "transcript text", some { filePath := some "ev.json", fixLog := none }) := by
  decide

/-- C3. The abandonment failure message contains the word "session", which
matches the agent-spawn pattern tested before the abandoned pattern, so the
classifier returns `agent_spawn_failed` (retryable) instead of the dedicated
non-retryable `abandoned_stage` type, and the retry decision for an
abandonment failure with retries remaining is retry, not halt. -/
theorem C3_abandoned_misclassified_as_spawn_failure :
    (classifyError (abandonedMessage "build")).type = ErrorType.agent_spawn_failed ∧
    (classifyError (abandonedMessage "build")).retryable = true ∧
    (classifyError (abandonedMessage "build")).type ≠ ErrorType.abandoned_stage ∧
    (decideRecoveryAction (classifyError (abandonedMessage "build")) 1 1).action =
      RecAction.retry := by
  decide

/-- C2 counterexample. A successful run whose carried iteration counter equals
the cap reports status `reached-max` with `iteration.current = 3 =
maxIterations`, which is not at most `maxIterations - 1 = 2`; the claim's
bound on `iteration.current` is false. -/
theorem C2_counterexample :
    ((executeWorkflow cEnv2 cWf2 cCtx3).1.toOption.map (fun r =>
        (r.iteration.status, r.iteration.current, r.iteration.max)) =
      some (some "reached-max", 3, 3)) ∧
    effMaxIterations cWf2 = 3 ∧ ¬(3 ≤ 3 - 1) := by
  decide

/-- C4 counterexample. A stage that succeeds on its first attempt with
`maxRetries = 0` gets a terminal Stage Result with `attempts = 1`, while the
claim's formula gives `min(failures_encountered, maxRetries + 1) =
min(0, 1) = 0 ≠ 1` (the oracle `cEnv4` makes every attempt succeed, so zero
failed attempts were made). -/
theorem C4_counterexample :
    (((executeWorkflow cEnv4 cWf4 cCtx0).1.toOption.bind
        (fun r => lookupSR r.stages "s1")).map
      (fun r => (r.status, r.attempts)) = some (.complete, some 1)) ∧
    effMaxRetries cStage4 cWf4 = 0 ∧
    (∀ iter attempt, attSucceeds (cEnv4.att iter "s1" attempt) = true) ∧
    min 0 (0 + 1) ≠ 1 := by
  refine ⟨by decide, by decide, fun iter attempt => rfl, by decide⟩

/-- C7 counterexample. Re-validating the same evidence payload against the
same on-disk file at two different clock readings (50ms and 250ms after the
file's modification time) yields different results: the first run trips the
under-100ms freshness heuristic, the second does not. -/
theorem C7_counterexample :
    validateCompletionEvidence c7fs 50 c7extract false ≠
      validateCompletionEvidence c7fs 250 c7extract false ∧
    (validateCompletionEvidence c7fs 50 c7extract false).valid = false ∧
    (validateCompletionEvidence c7fs 250 c7extract false).valid = true ∧
    (validateCompletionEvidence c7fs 50 c7extract false).errors =
      ["Evidence file created too recently (50ms), appears fake: /ev.txt"] := by
  decide

/-- C9. Every state-store operation — save, stage-completion update,
stage-failure update, mark-completed, resume, cancel — preserves the invariant
that a completed state carries `failedStage = null` and `errorMessage =
null`. -/
theorem C9_state_invariant_preserved (st : WState) (stageName : String) (res : StageResult)
    (errMsg : String) (now : Int) (h : StateInv st) :
    StateInv (saveWorkflowState st now) ∧
    StateInv (updateStageCompletion st stageName res now) ∧
    StateInv (updateStageFailure st stageName errMsg now) ∧
    StateInv (markWorkflowCompleted st now) ∧
    (∀ st2, resumeWorkflow st now = .ok st2 → StateInv st2) ∧
    StateInv (cancelWorkflow st now).2 := by
  refine ⟨fun hc => h hc, ?_, ?_, fun _ => ⟨rfl, rfl⟩, ?_, ?_⟩
  · intro hc
    have hc0 : st.status = .completed := hc
    obtain ⟨h1, h2⟩ := h hc0
    exact ⟨by simp [updateStageCompletion, saveWorkflowState, h1], rfl⟩
  · intro hc
    exact absurd hc (by simp [updateStageFailure, saveWorkflowState])
  · intro st2 hres hc
    by_cases h1 : st.status = .completed
    · simp [resumeWorkflow, h1] at hres
    · by_cases h2 : st.status = .cancelled
      · simp [resumeWorkflow, h1, h2] at hres
      · simp only [resumeWorkflow, h1, h2, if_false, ite_false] at hres
        cases hres
        exact absurd hc (by simp [saveWorkflowState])
  · by_cases h1 : st.status = .completed
    · intro hc
      have : (cancelWorkflow st now).2 = st := by simp [cancelWorkflow, h1]
      rw [this] at hc ⊢
      exact h hc
    · by_cases h2 : st.status = .cancelled
      · intro hc
        have : (cancelWorkflow st now).2 = st := by simp [cancelWorkflow, h1, h2]
        rw [this] at hc ⊢
        exact h hc
      · intro hc
        exact absurd hc (by simp [cancelWorkflow, saveWorkflowState, h1, h2])

/-- C7 amended. Validation is deterministic apart from its `Date.now()`
reading, which only feeds the under-100ms freshness check: two validations of
the same evidence payload against the same files return identical
`\x7bvalid, errors\x7d` provided the referenced evidence file (when present
and existing) is at least 100ms old at both clock readings. -/
theorem C7_amended (fsm : FsModel) (t1 t2 : Int) (extract : EvExtract) (isDoc : Bool)
    (h : ∀ ev p fi, extract = .parsed ev → ev.filePath = some p → p ≠ "" →
        fsm.stat (resolvePath fsm p) = some fi →
        100 ≤ t1 - fi.mtimeMs ∧ 100 ≤ t2 - fi.mtimeMs) :
    validateCompletionEvidence fsm t1 extract isDoc =
      validateCompletionEvidence fsm t2 extract isDoc := by
  cases extract with
  | noMatch => rfl
  | parseError m => rfl
  | parsed ev =>
      simp only [validateCompletionEvidence]
      cases hfp : ev.filePath with
      | none => rfl
      | some p =>
          by_cases hp : p = ""
          · simp [hfp, hp]
          · cases hst : fsm.stat (resolvePath fsm p) with
            | none => simp [hfp, hp, hst]
            | some fi =>
                obtain ⟨ha1, ha2⟩ := h ev p fi rfl hfp hp hst
                have e1 : ¬(t1 - fi.mtimeMs < 100) := by omega
                have e2 : ¬(t2 - fi.mtimeMs < 100) := by omega
                simp [hfp, hp, hst, e1, e2]

/-- C7 amended, witness: at two clock readings 250ms and 400ms past the
evidence file's modification time, validating the same parsed payload against
the same files gives identical results. -/
theorem C7_amended_witness :
    validateCompletionEvidence c7fs 250 c7extract false =
      validateCompletionEvidence c7fs 400 c7extract false :=
  C7_amended c7fs 250 400 c7extract false (by
    intro ev p fi he hp hne hst
    simp only [c7extract, EvExtract.parsed.injEq] at he
    subst he
    have hp2 : p = "/ev.txt" := by simpa using hp.symm
    subst hp2
    have hfi : fi = ⟨0, 6, "PASS 3"⟩ := by
      simpa [c7fs, resolvePath, isAbsolutePath] using hst.symm
    subst hfi
    exact ⟨by decide, by decide⟩)

/-- Helper: a result returned by the retry loop is a complete result whose
`attempts` equals the index of the first succeeding attempt from the loop's
starting point, with every earlier attempt in range failing. -/
theorem stageLoop_ok (att : Nat → AttemptOutcome) (name : String) (mr : Nat) :
    ∀ rem attempt le r, (stageLoop att name mr rem attempt le).1 = .ok r →
      r.status = .complete ∧ r.transcript = none ∧
      ∃ k, r.attempts = some k ∧ attempt ≤ k ∧ attSucceeds (att k) = true ∧
        ∀ j, attempt ≤ j → j < k → attSucceeds (att j) = false := by
  intro rem
  induction rem with
  | zero =>
      intro attempt le r h
      exact absurd h (by simp [stageLoop])
  | succ rem ih =>
      intro attempt le r h
      simp only [stageLoop] at h
      cases hatt : att attempt with
      | success out file sid str ev =>
          rw [hatt] at h
          simp only at h
          cases h
          refine ⟨rfl, rfl, attempt, rfl, le_refl _, by simp [attSucceeds, hatt], ?_⟩
          intro j h1 h2
          omega
      | failure msg =>
          rw [hatt] at h
          simp only at h
          by_cases hr : handleErrorShouldRetry msg attempt mr
          · rw [if_pos hr] at h
            simp only at h
            obtain ⟨hc, ht, k, hk, hle, hks, hall⟩ := ih (attempt + 1) msg r h
            refine ⟨hc, ht, k, hk, by omega, hks, ?_⟩
            intro j h1 h2
            by_cases hj : j = attempt
            · subst hj
              simp [attSucceeds, hatt]
            · exact hall j (by omega) h2
          · rw [if_neg hr] at h
            exact absurd h (by simp)

/-- Helper: shape of a successful `executeStage` run. -/
theorem executeStage_ok (att : Nat → AttemptOutcome) (stage : Stage) (wf : Workflow)
    (r : StageResult) (h : (executeStage att stage wf).1 = .ok r) :
    r.status = .complete ∧ r.transcript = none ∧
    ∃ k, r.attempts = some k ∧ 1 ≤ k ∧ attSucceeds (att k) = true ∧
      ∀ j, 1 ≤ j → j < k → attSucceeds (att j) = false := by
  unfold executeStage at h
  cases hcf : stage.contextFromThrows with
  | some m =>
      rw [hcf] at h
      exact absurd h (by simp)
  | none =>
      rw [hcf] at h
      exact stageLoop_ok att stage.name (effMaxRetries stage wf) (effMaxRetries stage wf + 1) 1 "" r h

/-- Helper: lookup after a map assignment. -/
theorem lookupSR_set (m : List (String × StageResult)) (k : String) (v : StageResult)
    (s : String) :
    lookupSR (setSR m k v) s = if k = s then some v else lookupSR m s := by
  simp only [lookupSR, setSR, List.find?]
  by_cases h : k = s
  · simp [h]
  · simp [h]


/-- Helper: provenance of every entry of the stage-outputs map produced by the
scheduler loop — it was already in the initial map, or it is a skipped entry,
or it came from a successful `executeStage`, or it is the failed entry the
scheduler records when `executeStage` throws. -/
theorem runStages_entry (env : WEnv) (wf : Workflow) (iter : Nat) (stop : Bool) :
    ∀ order m0 f0 sp0 s r,
      lookupSR (runStages env wf iter stop order m0 f0 sp0).1 s = some r →
      lookupSR m0 s = some r ∨
      (r.status = .skipped ∧ r.transcript = none ∧ r.attempts = some 0 ∧ r.error = none) ∨
      (∃ stage, wf.stages.find? (fun t => t.name = s) = some stage ∧
          (executeStage (env.att iter s) stage wf).1 = .ok r) ∨
      (∃ stage msg, wf.stages.find? (fun t => t.name = s) = some stage ∧
          (executeStage (env.att iter s) stage wf).1 = .error msg ∧
          r.status = .failed ∧ r.transcript = none ∧ r.attempts = none ∧
          r.error = some ⟨msg, effMaxRetries stage wf + 1⟩) := by
  intro order
  induction order with
  | nil =>
      intro m0 f0 sp0 s r h
      exact Or.inl h
  | cons head rest ih =>
      intro m0 f0 sp0 s r h
      simp only [runStages] at h
      split at h
      · exact Or.inl h
      · next stage hfind =>
          split at h
          · -- skipped branch
            rcases ih _ _ _ _ _ h with hm | hsk | hok | hfl
            · rw [lookupSR_set] at hm
              by_cases hhs : head = s
              · subst hhs
                rw [if_pos rfl] at hm
                cases hm
                exact Or.inr (Or.inl ⟨rfl, rfl, rfl, rfl⟩)
              · rw [if_neg hhs] at hm
                exact Or.inl hm
            · exact Or.inr (Or.inl hsk)
            · exact Or.inr (Or.inr (Or.inl hok))
            · exact Or.inr (Or.inr (Or.inr hfl))
          · -- execution branch
            split at h
            · next r0 hex =>
                rcases ih _ _ _ _ _ h with hm | hsk | hok | hfl
                · rw [lookupSR_set] at hm
                  by_cases hhs : head = s
                  · subst hhs
                    rw [if_pos rfl] at hm
                    cases hm
                    exact Or.inr (Or.inr (Or.inl ⟨stage, hfind, hex⟩))
                  · rw [if_neg hhs] at hm
                    exact Or.inl hm
                · exact Or.inr (Or.inl hsk)
                · exact Or.inr (Or.inr (Or.inl hok))
                · exact Or.inr (Or.inr (Or.inr hfl))
            · next msg hex =>
                split at h
                · -- stopOnError: loop breaks with the failed entry recorded
                  rw [lookupSR_set] at h
                  by_cases hhs : head = s
                  · subst hhs
                    rw [if_pos rfl] at h
                    cases h
                    exact Or.inr (Or.inr (Or.inr ⟨stage, msg, hfind, hex, rfl, rfl, rfl, rfl⟩))
                  · rw [if_neg hhs] at h
                    exact Or.inl h
                · rcases ih _ _ _ _ _ h with hm | hsk | hok | hfl
                  · rw [lookupSR_set] at hm
                    by_cases hhs : head = s
                    · subst hhs
                      rw [if_pos rfl] at hm
                      cases hm
                      exact Or.inr (Or.inr (Or.inr ⟨stage, msg, hfind, hex, rfl, rfl, rfl, rfl⟩))
                    · rw [if_neg hhs] at hm
                      exact Or.inl hm
                  · exact Or.inr (Or.inl hsk)
                  · exact Or.inr (Or.inr (Or.inl hok))
                  · exact Or.inr (Or.inr (Or.inr hfl))

/-- Helper: a restart request implies the counter was under the cap and the
new context carries the incremented counter with one record appended. -/
theorem runPassOnce_restart (env : WEnv) (wf : Workflow) (ctx : Ctx) (nc : Ctx) (sp : Nat)
    (h : runPassOnce env wf ctx = .restart nc sp) :
    ctx.iteration < effMaxIterations wf ∧ nc.iteration = ctx.iteration + 1 ∧
    nc.previousIterations.length = ctx.previousIterations.length + 1 := by
  simp only [runPassOnce] at h
  split at h
  · simp at h
  · split at h
    · simp at h
    · split at h
      · split at h
        · next hlt =>
            split at h
            · cases h
              exact ⟨hlt, rfl, by simp⟩
            · simp at h
        · simp at h
      · simp at h

/-- Helper: shape of a returned (non-restarting) pass. -/
theorem runPassOnce_done_ok (env : WEnv) (wf : Workflow) (ctx : Ctx)
    (res : WorkflowResult) (sp p : Nat)
    (h : runPassOnce env wf ctx = .done (.ok res) sp p) :
    p = 1 ∧
    (validateWorkflow wf).1 = true ∧
    res.iteration.current = ctx.iteration ∧
    res.iteration.max = effMaxIterations wf ∧
    res.iteration.previousIterations = ctx.previousIterations ∧
    (res.iteration.status = some "reached-max" → effMaxIterations wf ≤ ctx.iteration) ∧
    ∃ order sp2, topologicalSort wf.stages = .ok order ∧ res.executionOrder = order ∧
      runStages env wf ctx.iteration (effStopOnError wf) order [] none 0 =
        (res.stages, res.failedStage, sp2) := by
  simp only [runPassOnce] at h
  split at h
  · simp at h
  · next hv =>
      have hv2 : (validateWorkflow wf).1 = true := by
        revert hv
        cases (validateWorkflow wf).1 <;> simp
      split at h
      · simp at h
      · next order hts =>
          split at h
          · split at h
            · split at h
              · simp at h
              · cases h
                exact ⟨rfl, hv2, rfl, rfl, rfl, by simp, order, _, hts, rfl, rfl⟩
            · next hge =>
                cases h
                exact ⟨rfl, hv2, rfl, rfl, rfl, fun _ => by omega, order, _, hts, rfl, rfl⟩
          · cases h
            exact ⟨rfl, hv2, rfl, rfl, rfl, by simp, order, _, hts, rfl, rfl⟩

/-- Helper: a pass reports at most one scheduler pass. -/
theorem runPassOnce_done_passes (env : WEnv) (wf : Workflow) (ctx : Ctx)
    (e : Except String WorkflowResult) (sp p : Nat)
    (h : runPassOnce env wf ctx = .done e sp p) : p ≤ 1 := by
  simp only [runPassOnce] at h
  split at h
  · cases h; omega
  · split at h
    · cases h; omega
    · split at h
      · split at h
        · split at h
          · simp at h
          · cases h; omega
        · cases h; omega
      · cases h; omega

/-- Helper: shape of a successful `executeWorkflowAux` run — the returned
aggregate comes from a pass whose stage loop ran at the reported iteration
counter on the reported (sorted) execution order. -/
theorem aux_ok_shape (env : WEnv) (wf : Workflow) :
    ∀ fuel ctx res, (executeWorkflowAux env wf fuel ctx).1 = .ok res →
      (validateWorkflow wf).1 = true ∧
      ∃ order sp2, topologicalSort wf.stages = .ok order ∧ res.executionOrder = order ∧
        runStages env wf res.iteration.current (effStopOnError wf) order [] none 0 =
          (res.stages, res.failedStage, sp2) := by
  intro fuel
  induction fuel with
  | zero =>
      intro ctx res h
      simp only [executeWorkflowAux] at h
      split at h
      · next e sp p hp =>
          simp only at h
          subst h
          obtain ⟨-, hv, hcur, -, -, -, order, sp2, hts, hord, hrun⟩ :=
            runPassOnce_done_ok env wf ctx res sp p hp
          exact ⟨hv, order, sp2, hts, hord, by rw [hcur]; exact hrun⟩
      · simp at h
  | succ fuel ih =>
      intro ctx res h
      simp only [executeWorkflowAux] at h
      split at h
      · next e sp p hp =>
          simp only at h
          subst h
          obtain ⟨-, hv, hcur, -, -, -, order, sp2, hts, hord, hrun⟩ :=
            runPassOnce_done_ok env wf ctx res sp p hp
          exact ⟨hv, order, sp2, hts, hord, by rw [hcur]; exact hrun⟩
      · next nc sp hp =>
          simp only at h
          exact ih nc res h

/-- Helper: the number of scheduler passes is bounded by the remaining
iteration budget plus one. -/
theorem aux_passes (env : WEnv) (wf : Workflow) :
    ∀ fuel ctx, (executeWorkflowAux env wf fuel ctx).2.2 ≤
      (effMaxIterations wf - ctx.iteration) + 1 := by
  intro fuel
  induction fuel with
  | zero =>
      intro ctx
      simp only [executeWorkflowAux]
      split
      · next e sp p hp =>
          have := runPassOnce_done_passes env wf ctx e sp p hp
          simpa using by omega
      · simp
  | succ fuel ih =>
      intro ctx
      simp only [executeWorkflowAux]
      split
      · next e sp p hp =>
          have := runPassOnce_done_passes env wf ctx e sp p hp
          simpa using by omega
      · next nc sp hp =>
          obtain ⟨hlt, hinc, -⟩ := runPassOnce_restart env wf ctx nc sp hp
          have hrec := ih nc
          simp only
          rw [hinc] at hrec
          omega

/-- Helper: a run reporting `reached-max` observed a counter at or above the
cap. -/
theorem aux_reached_max (env : WEnv) (wf : Workflow) :
    ∀ fuel ctx res, (executeWorkflowAux env wf fuel ctx).1 = .ok res →
      res.iteration.status = some "reached-max" →
      effMaxIterations wf ≤ res.iteration.current := by
  intro fuel
  induction fuel with
  | zero =>
      intro ctx res h hst
      simp only [executeWorkflowAux] at h
      split at h
      · next e sp p hp =>
          simp only at h
          subst h
          obtain ⟨-, -, hcur, -, -, himp, -⟩ := runPassOnce_done_ok env wf ctx res sp p hp
          rw [hcur]
          exact himp hst
      · simp at h
  | succ fuel ih =>
      intro ctx res h hst
      simp only [executeWorkflowAux] at h
      split at h
      · next e sp p hp =>
          simp only at h
          subst h
          obtain ⟨-, -, hcur, -, -, himp, -⟩ := runPassOnce_done_ok env wf ctx res sp p hp
          rw [hcur]
          exact himp hst
      · next nc sp hp =>
          simp only at h
          exact ih nc res h hst

/-- C2 amended. The iteration controller never restarts the scheduler more
than `maxIterations` times (the pass count minus one bounds the restarts), and
when it reports `reached-max` the returned `iteration.current` is at least
`maxIterations` — equal to it for a chain that began at iteration 0 — rather
than at most `maxIterations - 1` as the claim stated. -/
theorem C2_amended (env : WEnv) (wf : Workflow) (ctx : Ctx) :
    (executeWorkflow env wf ctx).2.2 - 1 ≤ effMaxIterations wf ∧
    ∀ res, (executeWorkflow env wf ctx).1 = .ok res →
      res.iteration.status = some "reached-max" →
      effMaxIterations wf ≤ res.iteration.current := by
  constructor
  · have := aux_passes env wf (effMaxIterations wf + 1) ctx
    unfold executeWorkflow
    omega
  · intro res h hst
    exact aux_reached_max env wf (effMaxIterations wf + 1) ctx res h hst

/-- C2 amended, witness: the exhaustion scenario instantiated at the concrete
reached-max run. -/
theorem C2_amended_witness :
    (executeWorkflow cEnv2 cWf2 cCtx3).2.2 - 1 ≤ effMaxIterations cWf2 ∧
    effMaxIterations cWf2 ≤ c2result.iteration.current :=
  ⟨(C2_amended cEnv2 cWf2 cCtx3).1,
   (C2_amended cEnv2 cWf2 cCtx3).2 c2result rfl (by decide)⟩

/-- C10. Every stage entry of the aggregate a successful `executeWorkflow`
returns has status complete, failed, or skipped — never pending. -/
theorem C10_no_pending (env : WEnv) (wf : Workflow) (ctx : Ctx) (res : WorkflowResult)
    (s : String) (r : StageResult)
    (hok : (executeWorkflow env wf ctx).1 = .ok res)
    (hs : lookupSR res.stages s = some r) :
    r.status = .complete ∨ r.status = .failed ∨ r.status = .skipped := by
  obtain ⟨-, order, sp2, -, -, hrun⟩ :=
    aux_ok_shape env wf (effMaxIterations wf + 1) ctx res hok
  have hs2 : lookupSR (runStages env wf res.iteration.current (effStopOnError wf)
      order [] none 0).1 s = some r := by
    rw [hrun]
    exact hs
  rcases runStages_entry env wf res.iteration.current (effStopOnError wf)
      order [] none 0 s r hs2 with hm | hsk | hok2 | hfl
  · exact absurd hm (by simp [lookupSR])
  · exact Or.inr (Or.inr hsk.1)
  · obtain ⟨stage, -, hex⟩ := hok2
    exact Or.inl (executeStage_ok _ stage wf r hex).1
  · obtain ⟨stage, msg, -, -, hst, -⟩ := hfl
    exact Or.inr (Or.inl hst)

/-- C10 witness: instantiated at the failed stage of the concrete stop-on-error
run. -/
theorem C10_witness :
    c8entryB.status = .complete ∨ c8entryB.status = .failed ∨ c8entryB.status = .skipped :=
  C10_no_pending cEnv8 cWf8 cCtx0 c8result "B" c8entryB rfl (by decide)

/-- C4 amended. In a terminal Stage Result of a fresh run: a complete result's
`attempts` equals the 1-based index of the succeeding attempt, i.e.
`failures_encountered + 1`, not `min(failures_encountered, maxRetries + 1)`;
and a failed result's recorded attempt count (its `error.attempts`) is always
`maxRetries + 1` regardless of how many attempts were actually made. -/
theorem C4_amended (env : WEnv) (wf : Workflow) (ctx : Ctx) (res : WorkflowResult)
    (s : String) (r : StageResult)
    (hok : (executeWorkflow env wf ctx).1 = .ok res)
    (hs : lookupSR res.stages s = some r) :
    (r.status = .complete →
      ∃ k, r.attempts = some k ∧ 1 ≤ k ∧
        attSucceeds (env.att res.iteration.current s k) = true ∧
        ∀ j, 1 ≤ j → j < k → attSucceeds (env.att res.iteration.current s j) = false) ∧
    (r.status = .failed →
      ∃ stage msg, wf.stages.find? (fun t => t.name = s) = some stage ∧
        r.error = some ⟨msg, effMaxRetries stage wf + 1⟩) := by
  obtain ⟨-, order, sp2, -, -, hrun⟩ :=
    aux_ok_shape env wf (effMaxIterations wf + 1) ctx res hok
  have hs2 : lookupSR (runStages env wf res.iteration.current (effStopOnError wf)
      order [] none 0).1 s = some r := by
    rw [hrun]
    exact hs
  rcases runStages_entry env wf res.iteration.current (effStopOnError wf)
      order [] none 0 s r hs2 with hm | hsk | hok2 | hfl
  · exact absurd hm (by simp [lookupSR])
  · refine ⟨fun hc => ?_, fun hc => ?_⟩
    · rw [hsk.1] at hc
      exact absurd hc (by simp)
    · rw [hsk.1] at hc
      exact absurd hc (by simp)
  · obtain ⟨stage, hfind, hex⟩ := hok2
    obtain ⟨hcs, -, k, hk, hk1, hks, hall⟩ := executeStage_ok _ stage wf r hex
    refine ⟨fun _ => ⟨k, hk, hk1, hks, hall⟩, fun hc => ?_⟩
    rw [hcs] at hc
    exact absurd hc (by simp)
  · obtain ⟨stage, msg, hfind, hex, hst, -, -, herr⟩ := hfl
    refine ⟨fun hc => ?_, fun _ => ⟨stage, msg, hfind, herr⟩⟩
    rw [hst] at hc
    exact absurd hc (by simp)

/-- C4 amended, witness: at the concrete happy-path run, the complete result's
`attempts` is the succeeding attempt index 1 (zero preceding failures). -/
theorem C4_amended_witness :
    ∃ k, c4entry.attempts = some k ∧ 1 ≤ k ∧
      attSucceeds (cEnv4.att c4result.iteration.current "s1" k) = true ∧
      ∀ j, 1 ≤ j → j < k → attSucceeds (cEnv4.att c4result.iteration.current "s1" j) = false :=
  (C4_amended cEnv4 cWf4 cCtx0 c4result "s1" c4entry rfl (by decide)).1 (by decide)

/-- C9 witness: after marking a running state completed, both failure markers
are cleared, as the invariant demands. -/
theorem C9_witness :
    (markWorkflowCompleted c9state 7).failedStage = none ∧
    (markWorkflowCompleted c9state 7).errorMessage = none :=
  (C9_state_invariant_preserved c9state "s" c9res "m" 7 (fun hc => nomatch hc)).2.2.2.1 rfl

/-- Helper: indegree table after processing a neighbor list — each name is
decremented once per occurrence. -/
theorem pN_indeg (x : String) :
    ∀ (ws : List String) (indeg : String → Int) (queue : List String),
      (processNeighbors ws indeg queue).1 x = indeg x - ws.count x := by
  intro ws
  induction ws with
  | nil => intro indeg queue; simp [processNeighbors]
  | cons w ws ih =>
      intro indeg queue
      simp only [processNeighbors]
      rw [ih]
      by_cases hx : x = w
      · subst hx
        rw [List.count_cons]
        simp
        omega
      · rw [List.count_cons]
        have : (w == x) = false := by
          simp [Ne.symm hx]
        rw [this]
        simp [hx]

/-- Helper: membership in the queue after processing a neighbor list — the
old members plus every name whose indegree lies between 1 and its occurrence
count (those are exactly the names whose running decrement hits zero). -/
theorem pN_mem (x : String) :
    ∀ (ws : List String) (indeg : String → Int) (queue : List String),
      x ∈ (processNeighbors ws indeg queue).2 ↔
        x ∈ queue ∨ (1 ≤ indeg x ∧ indeg x ≤ ws.count x) := by
  intro ws
  induction ws with
  | nil =>
      intro indeg queue
      simp only [processNeighbors, List.count_nil]
      constructor
      · exact Or.inl
      · rintro (h | ⟨h1, h2⟩)
        · exact h
        · exact absurd h2 (by omega)
  | cons w ws ih =>
      intro indeg queue
      simp only [processNeighbors]
      simp only [ih]
      by_cases hx : x = w
      · subst hx
        rw [if_pos rfl]
        have h2 : (((x :: ws).count x : Nat) : Int) = ((ws.count x : Nat) : Int) + 1 := by
          rw [List.count_cons]
          simp
        rw [h2]
        by_cases hd : indeg x - 1 = 0
        · rw [if_pos hd]
          simp only [List.mem_append, List.mem_singleton]
          constructor
          · rintro ((h | h) | ⟨h1a, h2a⟩)
            · exact Or.inl h
            · exact Or.inr ⟨by omega, by omega⟩
            · exact Or.inr ⟨by omega, by omega⟩
          · rintro (h | ⟨h1a, h2a⟩)
            · exact Or.inl (Or.inl h)
            · by_cases h3 : indeg x = 1
              · exact Or.inl (Or.inr trivial)
              · exact Or.inr ⟨by omega, by omega⟩
        · rw [if_neg hd]
          constructor
          · rintro (h | ⟨h1a, h2a⟩)
            · exact Or.inl h
            · exact Or.inr ⟨by omega, by omega⟩
          · rintro (h | ⟨h1a, h2a⟩)
            · exact Or.inl h
            · exact Or.inr ⟨by omega, by omega⟩
      · rw [if_neg hx]
        have h2 : (((w :: ws).count x : Nat) : Int) = ((ws.count x : Nat) : Int) := by
          rw [List.count_cons]
          have hb : (w == x) = false := by
            simpa using (Ne.symm hx)
          simp [hb]
        rw [h2]
        by_cases hd : indeg w - 1 = 0
        · rw [if_pos hd]
          simp only [List.mem_append, List.mem_singleton]
          constructor
          · rintro ((h | h) | hh)
            · exact Or.inl h
            · exact absurd h hx
            · exact Or.inr hh
          · rintro (h | hh)
            · exact Or.inl (Or.inl h)
            · exact Or.inr hh
        · rw [if_neg hd]

/-- Helper: processing neighbors keeps the queue duplicate-free, provided
queued names have non-positive indegree (they were already enqueued at zero). -/
theorem pN_nodup :
    ∀ (ws : List String) (indeg : String → Int) (queue : List String),
      queue.Nodup → (∀ y ∈ queue, indeg y ≤ 0) →
      (processNeighbors ws indeg queue).2.Nodup := by
  intro ws
  induction ws with
  | nil =>
      intro indeg queue h1 h2
      simpa [processNeighbors] using h1
  | cons w ws ih =>
      intro indeg queue h1 h2
      simp only [processNeighbors]
      by_cases hd : indeg w - 1 = 0
      · rw [if_pos hd]
        refine ih _ _ ?_ ?_
        · have hw : w ∉ queue := by
            intro hmem
            have := h2 w hmem
            omega
          simp [List.nodup_append, hw, h1]
        · intro y hy
          rcases List.mem_append.mp hy with hy1 | hy2
          · by_cases hyw : y = w
            · subst hyw
              rw [if_pos rfl]
              omega
            · rw [if_neg hyw]
              exact h2 y hy1
          · have hyw : y = w := by simpa using hy2
            subst hyw
            rw [if_pos rfl]
            omega
      · rw [if_neg hd]
        refine ih _ _ h1 ?_
        intro y hy
        by_cases hyw : y = w
        · subst hyw
          rw [if_pos rfl]
          have := h2 y hy
          omega
        · rw [if_neg hyw]
          exact h2 y hy

/-- Helper: adjacency members are stage names. -/
theorem adj_mem (stages : List Stage) (u x : String) (h : x ∈ adjOf stages u) :
    x ∈ stageNames stages := by
  simp only [adjOf, List.mem_flatMap, List.mem_map, List.mem_filter] at h
  obtain ⟨s, hs, d, -, hx⟩ := h
  subst hx
  exact List.mem_map.mpr ⟨s, hs, rfl⟩

/-- Helper: a name with a nonempty dependency list is a stage name. -/
theorem deps_ne_nil_mem (stages : List Stage) (v : String) (h : depsOf stages v ≠ []) :
    v ∈ stageNames stages := by
  unfold depsOf at h
  cases hf : stages.find? (fun s => s.name = v) with
  | none => rw [hf] at h; exact absurd rfl h
  | some s =>
      have hmem := List.mem_of_find?_eq_some hf
      have hpred := List.find?_some hf
      simp only [decide_eq_true_eq] at hpred
      exact List.mem_map.mpr ⟨s, hmem, hpred⟩

/-- Helper: occurrence count of a literal-filter equals `List.count`. -/
theorem filter_eq_length_count (u : String) :
    ∀ l : List String, (l.filter (fun d => d = u)).length = l.count u := by
  intro l
  induction l with
  | nil => rfl
  | cons a l ih =>
      rw [List.count_cons]
      by_cases ha : a = u
      · have hb : (a == u) = true := by simpa using ha
        simp [List.filter_cons, ha, hb, ih]
      · have hb : (a == u) = false := by simpa using ha
        simp [List.filter_cons, ha, hb, ih]

/-- Helper: `depsOf` on a cons. -/
theorem depsOf_cons (s : Stage) (rest : List Stage) (x : String) :
    depsOf (s :: rest) x = if s.name = x then s.dependencies else depsOf rest x := by
  unfold depsOf
  by_cases hsx : s.name = x
  · simp [List.find?, hsx]
  · simp [List.find?, hsx]

/-- Helper: multiplicity correspondence between the adjacency list and the
dependency lists — `adj[u]` holds `x` once per occurrence of `u` among the
dependencies of the (unique) stage named `x`. -/
theorem adj_count (stages : List Stage) (hnd : (stageNames stages).Nodup) (u x : String) :
    (adjOf stages u).count x = (depsOf stages x).count u := by
  induction stages with
  | nil => simp [adjOf, depsOf]
  | cons s rest ih =>
      have hnds : s.name ∉ stageNames rest ∧ (stageNames rest).Nodup := by
        simpa [stageNames] using hnd
      have hadj : adjOf (s :: rest) u =
          ((s.dependencies.filter (fun d => d = u)).map (fun _ => s.name)) ++ adjOf rest u := by
        simp [adjOf]
      rw [hadj, List.count_append, depsOf_cons]
      rw [List.map_const', List.count_replicate, filter_eq_length_count]
      by_cases hsx : s.name = x
      · have hb : (s.name == x) = true := by simpa using hsx
        rw [if_pos hsx, if_pos hb]
        have hz : (adjOf rest u).count x = 0 := by
          rw [List.count_eq_zero]
          intro hmem
          exact hnds.1 (hsx ▸ adj_mem rest u x hmem)
        omega
      · have hb : (s.name == x) = false := by simpa using hsx
        rw [if_neg hsx, if_neg (by simp [hb] : ¬(s.name == x) = true)]
        rw [ih hnds.2]
        omega

/-- Helper: emitting one more name splits the not-yet-emitted count of a
dependency list into the part still pending afterwards plus the occurrences of
the newly emitted name. -/
theorem filter_remove_length (c : String) (R : List String) (hc : c ∉ R) :
    ∀ l : List String, (l.filter (fun u => !(R.contains u))).length =
      (l.filter (fun u => !((R ++ [c]).contains u))).length + l.count c := by
  intro l
  induction l with
  | nil => simp
  | cons a l ih =>
      rw [List.count_cons]
      by_cases hac : a = c
      · subst hac
        have h1 : (R.contains a) = false := by simp [hc]
        have h2 : ((R ++ [a]).contains a) = true := by simp
        simp only [List.filter_cons, h1, h2, Bool.not_false, Bool.not_true, if_true, if_false,
          beq_self_eq_true, List.length_cons, Bool.false_eq_true, Bool.true_eq_false]
        omega
      · have hbeq : (a == c) = false := by simpa using hac
        by_cases haR : a ∈ R
        · have h1 : (R.contains a) = true := by simp [haR]
          have h2 : ((R ++ [c]).contains a) = true := by simp [haR]
          simp only [List.filter_cons, h1, h2, Bool.not_true, if_false, hbeq,
            Bool.false_eq_true, Bool.true_eq_false, List.length_cons]
          simpa using ih
        · have h1 : (R.contains a) = false := by simp [haR]
          have h2 : ((R ++ [c]).contains a) = false := by
            simp [haR, hac]
          simp only [List.filter_cons, h1, h2, Bool.not_false, if_true, hbeq,
            Bool.false_eq_true, Bool.true_eq_false, List.length_cons]
          have ih2 := ih
          simp at ih2 ⊢
          omega

/-- Helper: pending occurrences of a not-yet-emitted name are bounded by the
pending count. -/
theorem count_le_filter (c : String) (R : List String) (hc : c ∉ R) (l : List String) :
    l.count c ≤ (l.filter (fun u => !(R.contains u))).length := by
  have := filter_remove_length c R hc l
  omega

/-- Helper: precedence implies membership. -/
theorem before_mem_left (l : List String) (u v : String) (h : Before l u v) : u ∈ l := by
  obtain ⟨p, q, heq, hu⟩ := h
  rw [heq]
  exact List.mem_append_left _ hu

/-- Helper: in a dependency-closed list, all dependencies of a member are
members. -/
theorem depClosed_mem (stages : List Stage) (result : List String)
    (h : DepClosed stages result) (v : String) (hv : v ∈ result)
    (u : String) (hu : u ∈ depsOf stages v) : u ∈ result :=
  before_mem_left result u v (h v hv u hu)

/-- Helper: appending a name whose dependencies are all already emitted keeps
the list dependency-closed. -/
theorem depClosed_append (stages : List Stage) (result : List String) (c : String)
    (h : DepClosed stages result) (hc : ∀ u ∈ depsOf stages c, u ∈ result) :
    DepClosed stages (result ++ [c]) := by
  intro v hv u hu
  rcases List.mem_append.mp hv with hv1 | hv2
  · obtain ⟨p, q, heq, hup⟩ := h v hv1 u hu
    exact ⟨p, q ++ [c], by rw [heq]; simp, hup⟩
  · have hvc : v = c := by simpa using hv2
    subst hvc
    exact ⟨result, [], rfl, hc u hu⟩

/-- Helper: the invariant holds at loop entry. -/
theorem kinv_init (stages : List Stage) (hnd : (stageNames stages).Nodup) :
    KInv stages ((stageNames stages).filter (fun n => indeg0 stages n = 0))
      (indeg0 stages) [] := by
  refine ⟨?_, ?_, ?_, ?_, ?_, ?_, ?_, ?_, ?_⟩
  · intro v hv
    exact absurd hv (List.not_mem_nil v)
  · exact List.nodup_nil
  · intro v hv
    exact (List.mem_filter.mp hv).1
  · exact hnd.filter _
  · intro v _
    exact List.not_mem_nil v
  · intro v
    simp [indeg0]
  · intro v hv
    have := (List.mem_filter.mp hv).2
    simpa using this
  · intro v hvns _ hz
    exact List.mem_filter.mpr ⟨hvns, by simpa using hz⟩
  · intro v hv
    exact absurd hv (List.not_mem_nil v)

/-- Helper: one Kahn iteration preserves the invariant: popping the head of
the queue, emitting it, and processing its adjacency list. -/
theorem kinv_step (stages : List Stage) (hnd : (stageNames stages).Nodup)
    (current : String) (rest : List String) (indeg : String → Int) (result : List String)
    (inv : KInv stages (current :: rest) indeg result) :
    KInv stages (processNeighbors (adjOf stages current) indeg rest).2
      (processNeighbors (adjOf stages current) indeg rest).1 (result ++ [current]) := by
  have hcur_ns : current ∈ stageNames stages := inv.qNS current (by simp)
  have hcur_nr : current ∉ result := inv.qRes current (by simp)
  have hc0 : indeg current = 0 := inv.qZero current (by simp)
  have hrestnd : rest.Nodup := (List.nodup_cons.mp inv.qNodup).2
  have hcurrest : current ∉ rest := (List.nodup_cons.mp inv.qNodup).1
  have hdeps_sub : ∀ u ∈ depsOf stages current, u ∈ result := by
    intro u hu
    have h1 := inv.ideg current
    rw [hc0] at h1
    have h2 : ((depsOf stages current).filter (fun w => !(result.contains w))).length = 0 := by
      omega
    have h3 := List.filter_eq_nil_iff.mp (List.length_eq_zero.mp h2)
    have h4 := h3 u hu
    simpa using h4
  have hres_zero : ∀ v ∈ result, indeg v = 0 := by
    intro v hv
    have hsub : ∀ u ∈ depsOf stages v, u ∈ result :=
      fun u hu => depClosed_mem stages result inv.closed v hv u hu
    have hfil : (depsOf stages v).filter (fun w => !(result.contains w)) = [] := by
      apply List.filter_eq_nil_iff.mpr
      intro a ha
      simp [hsub a ha]
    rw [inv.ideg v, hfil]
    rfl
  have hmem := fun x => pN_mem x (adjOf stages current) indeg rest
  have hindeg := fun x => pN_indeg x (adjOf stages current) indeg rest
  refine ⟨?_, ?_, ?_, ?_, ?_, ?_, ?_, ?_, ?_⟩
  · intro v hv
    rcases List.mem_append.mp hv with h | h
    · exact inv.resNS v h
    · have hvc : v = current := by simpa using h
      subst hvc
      exact hcur_ns
  · simp [List.nodup_append, inv.resNodup, hcur_nr]
  · intro v hv
    rcases (hmem v).mp hv with h | ⟨h1, h2⟩
    · exact inv.qNS v (by simp [h])
    · apply deps_ne_nil_mem
      intro hnil
      have hig := inv.ideg v
      rw [hnil] at hig
      simp at hig
      omega
  · exact pN_nodup _ _ _ hrestnd
      (fun y hy => le_of_eq (inv.qZero y (List.mem_cons_of_mem _ hy)))
  · intro v hv hvr
    rcases (hmem v).mp hv with h | ⟨h1, h2⟩
    · rcases List.mem_append.mp hvr with hr | hr
      · exact inv.qRes v (by simp [h]) hr
      · have hvc : v = current := by simpa using hr
        subst hvc
        exact hcurrest h
    · rcases List.mem_append.mp hvr with hr | hr
      · have := hres_zero v hr
        omega
      · have hvc : v = current := by simpa using hr
        subst hvc
        omega
  · intro v
    rw [hindeg v, inv.ideg v, adj_count stages hnd current v]
    have hl6 := filter_remove_length current result hcur_nr (depsOf stages v)
    omega
  · intro v hv
    rw [hindeg v]
    rcases (hmem v).mp hv with h | ⟨h1, h2⟩
    · have hz := inv.qZero v (by simp [h])
      rw [hz]
      have hcnt : (adjOf stages current).count v = 0 := by
        rw [adj_count stages hnd current v, List.count_eq_zero]
        intro hmemc
        have hcont : current ∈ (depsOf stages v).filter (fun w => !(result.contains w)) := by
          simp [List.mem_filter, hmemc, hcur_nr]
        have hlen : 0 < ((depsOf stages v).filter (fun w => !(result.contains w))).length :=
          List.length_pos.mpr (List.ne_nil_of_mem hcont)
        have hig := inv.ideg v
        omega
      rw [hcnt]
      rfl
    · have hle := count_le_filter current result hcur_nr (depsOf stages v)
      have hig := inv.ideg v
      rw [adj_count stages hnd current v] at h2 ⊢
      omega
  · intro v hvns hvr2 hz2
    rw [hindeg v] at hz2
    have hvnr : v ∉ result := fun hm => hvr2 (List.mem_append_left _ hm)
    have hvnc : v ≠ current := fun he => hvr2 (by simp [he])
    rw [adj_count stages hnd current v] at hz2
    by_cases hcnt0 : (depsOf stages v).count current = 0
    · have hz : indeg v = 0 := by omega
      have hq := inv.zeroQ v hvns hvnr hz
      have hvrest : v ∈ rest := by
        rcases List.mem_cons.mp hq with he | hr
        · exact absurd he hvnc
        · exact hr
      exact (hmem v).mpr (Or.inl hvrest)
    · have hle := count_le_filter current result hcur_nr (depsOf stages v)
      have hig := inv.ideg v
      refine (hmem v).mpr (Or.inr ⟨?_, ?_⟩)
      · omega
      · rw [adj_count stages hnd current v]
        omega
  · exact depClosed_append stages result current inv.closed hdeps_sub

/-- Helper: with the invariant and enough fuel, the Kahn loop always returns
normally (no revisit error, no fuel exhaustion), emitting an extension of the
current result that satisfies the invariant with an empty queue. -/
theorem kahn_main (stages : List Stage) (hnd : (stageNames stages).Nodup) :
    ∀ fuel queue indeg result,
      KInv stages queue indeg result →
      (stageNames stages).length + 1 ≤ fuel + result.length →
      ∃ r2 indeg2, kahnLoop (adjOf stages) fuel queue indeg result = .ok r2 ∧
        result <+: r2 ∧ KInv stages [] indeg2 r2 := by
  intro fuel
  induction fuel with
  | zero =>
      intro queue indeg result inv hfuel
      cases queue with
      | nil =>
          refine ⟨result, indeg, rfl, List.prefix_refl result, ?_⟩
          exact ⟨inv.resNS, inv.resNodup, fun v hv => absurd hv (List.not_mem_nil v),
            List.nodup_nil, fun v hv => absurd hv (List.not_mem_nil v), inv.ideg,
            fun v hv => absurd hv (List.not_mem_nil v),
            fun v hvns hvr hz => inv.zeroQ v hvns hvr hz, inv.closed⟩
      | cons c rest =>
          exfalso
          have hsub : (result ++ [c]).Nodup := by
            simp [List.nodup_append, inv.resNodup, inv.qRes c (by simp)]
          have hss : (result ++ [c]) ⊆ stageNames stages := by
            intro x hx
            rcases List.mem_append.mp hx with h | h
            · exact inv.resNS x h
            · have hxc : x = c := by simpa using h
              subst hxc
              exact inv.qNS x (by simp)
          have hlen := (List.subperm_of_subset hsub hss).length_le
          simp at hlen
          omega
  | succ fuel ih =>
      intro queue indeg result inv hfuel
      cases queue with
      | nil =>
          refine ⟨result, indeg, rfl, List.prefix_refl result, ?_⟩
          exact ⟨inv.resNS, inv.resNodup, fun v hv => absurd hv (List.not_mem_nil v),
            List.nodup_nil, fun v hv => absurd hv (List.not_mem_nil v), inv.ideg,
            fun v hv => absurd hv (List.not_mem_nil v),
            fun v hvns hvr hz => inv.zeroQ v hvns hvr hz, inv.closed⟩
      | cons c rest =>
          have hcont : result.contains c = false := by
            simp [inv.qRes c (by simp)]
          have hstep := kinv_step stages hnd c rest indeg result inv
          have hlt : result.length < (stageNames stages).length := by
            have hsub : (result ++ [c]).Nodup := by
              simp [List.nodup_append, inv.resNodup, inv.qRes c (by simp)]
            have hss : (result ++ [c]) ⊆ stageNames stages := by
              intro x hx
              rcases List.mem_append.mp hx with h | h
              · exact inv.resNS x h
              · have hxc : x = c := by simpa using h
                subst hxc
                exact inv.qNS x (by simp)
            have hlen := (List.subperm_of_subset hsub hss).length_le
            simp at hlen
            omega
          obtain ⟨r2, indeg2, hloop, hpre, hinv2⟩ :=
            ih _ _ (result ++ [c]) hstep (by simp; omega)
          refine ⟨r2, indeg2, ?_, ?_, hinv2⟩
          · simp only [kahnLoop, hcont, Bool.false_eq_true, if_false]
            exact hloop
          · exact ((result.prefix_append [c]).trans hpre)

/-- Helper: disjunction of the sorter's outcomes — either a full order is
returned, or the cycle error names the unemitted stages; in both cases the
emitted list satisfies the final invariant. -/
theorem topoSort_cases (stages : List Stage) (hnd : (stageNames stages).Nodup) :
    ∃ r2 indeg2, KInv stages [] indeg2 r2 ∧
      ((r2.length = (stageNames stages).length ∧ topologicalSort stages = .ok r2) ∨
       (r2.length ≠ (stageNames stages).length ∧
         topologicalSort stages =
           .error (circularErrorMsg ((stageNames stages).filter (fun n => !(r2.contains n)))))) := by
  obtain ⟨r2, indeg2, hloop, -, hinv⟩ :=
    kahn_main stages hnd (stages.length + 1)
      ((stageNames stages).filter (fun n => indeg0 stages n = 0)) (indeg0 stages) []
      (kinv_init stages hnd)
      (by simp [stageNames])
  refine ⟨r2, indeg2, hinv, ?_⟩
  by_cases hlen : r2.length = (stageNames stages).length
  · left
    refine ⟨hlen, ?_⟩
    simp only [topologicalSort]
    rw [hloop]
    simp [hlen]
  · right
    refine ⟨hlen, ?_⟩
    simp only [topologicalSort]
    rw [hloop]
    simp [hlen]

/-- Helper: soundness package for a successful sort — the order is
duplicate-free, mentions exactly the stage names, and respects dependencies. -/
theorem topoSort_sound (stages : List Stage) (hnd : (stageNames stages).Nodup)
    (order : List String) (hok : topologicalSort stages = .ok order) :
    order.Nodup ∧ (∀ x, x ∈ order ↔ x ∈ stageNames stages) ∧ DepClosed stages order := by
  obtain ⟨r2, indeg2, hinv, hcase⟩ := topoSort_cases stages hnd
  rcases hcase with ⟨hlen, heq⟩ | ⟨-, heq⟩
  · rw [heq] at hok
    cases hok
    have hsubp : List.Subperm order (stageNames stages) :=
      List.subperm_of_subset hinv.resNodup (fun x hx => hinv.resNS x hx)
    have hperm : List.Perm order (stageNames stages) := hsubp.perm_of_length_le (by omega)
    exact ⟨hinv.resNodup, fun x => hperm.mem_iff, hinv.closed⟩
  · rw [heq] at hok
    simp at hok

/-- Helper: index of the distinguished occurrence in a split list. -/
theorem indexOf_split (p q : List String) (v : String) (hv : v ∉ p) :
    (p ++ v :: q).indexOf v = p.length := by
  induction p with
  | nil => exact List.indexOf_cons_self v q
  | cons a p ih =>
      have hav : a ≠ v := by
        intro he
        exact hv (he ▸ List.mem_cons_self a p)
      have hvp : v ∉ p := fun hm => hv (List.mem_cons_of_mem a hm)
      simp only [List.cons_append, List.length_cons]
      rw [List.indexOf_cons_ne _ hav, ih hvp]

/-- Helper: indices of prefix members stay below the prefix length. -/
theorem indexOf_prefix_lt (p rest : List String) (u : String) (hu : u ∈ p) :
    (p ++ rest).indexOf u < p.length := by
  rw [List.indexOf_append_of_mem hu]
  exact List.indexOf_lt_length.mpr hu

/-- Helper: in a duplicate-free dependency-closed order, every dependency of a
member has a strictly smaller index. -/
theorem depIdx (stages : List Stage) (order : List String) (hnd : order.Nodup)
    (hdc : DepClosed stages order) (s u : String) (hs : s ∈ order)
    (hu : u ∈ depsOf stages s) :
    u ∈ order ∧ order.indexOf u < order.indexOf s := by
  obtain ⟨p, q, heq, hup⟩ := hdc s hs u hu
  subst heq
  have hsp : s ∉ p := by
    simp [List.nodup_append] at hnd
    exact hnd.2.2.1
  constructor
  · exact List.mem_append_left _ hup
  · rw [indexOf_split p q s hsp]
    exact indexOf_prefix_lt p (s :: q) u hup

/-- Helper: transitive dependencies also precede their dependents in a
duplicate-free dependency-closed order. -/
theorem transDepIdx (stages : List Stage) (order : List String) (hnd : order.Nodup)
    (hdc : DepClosed stages order) (f s : String)
    (h : Relation.TransGen (depRel stages) f s) :
    s ∈ order → f ∈ order ∧ order.indexOf f < order.indexOf s := by
  induction h with
  | single hstep =>
      intro hs
      exact depIdx stages order hnd hdc _ _ hs hstep
  | tail h1 hstep ih =>
      intro hs
      obtain ⟨hw, hwidx⟩ := depIdx stages order hnd hdc _ _ hs hstep
      obtain ⟨hf, hfidx⟩ := ih hw
      exact ⟨hf, lt_trans hfidx hwidx⟩

/-- Helper: a stage on a dependency cycle is never emitted by the loop. -/
theorem cycle_not_mem (stages : List Stage) (order : List String) (hnd : order.Nodup)
    (hdc : DepClosed stages order) (v : String)
    (hcyc : Relation.TransGen (depRel stages) v v) : v ∉ order := by
  intro hv
  obtain ⟨-, hlt⟩ := transDepIdx stages order hnd hdc v v hcyc hv
  omega

/-- Helper: when the queue has drained and the dependency graph is acyclic
with all dependencies defined, every stage name has been emitted (well-founded
induction over the dependency relation restricted to the finite name set). -/
theorem kahn_complete (stages : List Stage)
    (hdeps : ∀ s ∈ stages, ∀ d ∈ s.dependencies, d ∈ stageNames stages)
    (hacyc : ∀ v, ¬ Relation.TransGen (depRel stages) v v)
    (r2 : List String) (indeg2 : String → Int) (hinv : KInv stages [] indeg2 r2) :
    ∀ v ∈ stageNames stages, v ∈ r2 := by
  let S := { x // x ∈ stageNames stages }
  let r : S → S → Prop := fun a b => depRel stages a.1 b.1
  have hlift : ∀ a b : S, Relation.TransGen r a b →
      Relation.TransGen (depRel stages) a.1 b.1 := by
    intro a b h
    induction h with
    | single hstep => exact Relation.TransGen.single hstep
    | tail h1 hstep ih => exact Relation.TransGen.tail ih hstep
  haveI : IsTrans S (Relation.TransGen r) := ⟨fun _ _ _ h1 h2 => h1.trans h2⟩
  haveI : IsIrrefl S (Relation.TransGen r) := ⟨fun a h => hacyc a.1 (hlift a a h)⟩
  have hwf2 : WellFounded (Relation.TransGen r) :=
    Finite.wellFounded_of_trans_of_irrefl (Relation.TransGen r)
  have hwf : WellFounded r := Subrelation.wf (fun h => Relation.TransGen.single h) hwf2
  have hmain : ∀ a : S, a.1 ∈ r2 := by
    intro a
    induction a using hwf.induction with
    | _ a ih =>
        by_contra hnot
        have hne : indeg2 a.1 ≠ 0 := by
          intro hz
          exact absurd (hinv.zeroQ a.1 a.2 hnot hz) (List.not_mem_nil a.1)
        have hig := hinv.ideg a.1
        have hfil : (depsOf stages a.1).filter (fun u => !(r2.contains u)) ≠ [] := by
          intro hnil
          rw [hnil] at hig
          simp at hig
          exact hne hig
        obtain ⟨u, hu⟩ := List.exists_mem_of_ne_nil _ hfil
        have hu2 := List.mem_filter.mp hu
        have humem : u ∈ depsOf stages a.1 := hu2.1
        have hunotr : u ∉ r2 := by
          have := hu2.2
          simpa using this
        have huns : u ∈ stageNames stages := by
          unfold depsOf at humem
          cases hf : stages.find? (fun s => s.name = a.1) with
          | none => rw [hf] at humem; exact absurd humem (List.not_mem_nil u)
          | some st =>
              rw [hf] at humem
              exact hdeps st (List.mem_of_find?_eq_some hf) u humem
        exact hunotr (ih ⟨u, huns⟩ humem)
  intro v hv
  exact hmain ⟨v, hv⟩

/-- Helper: with duplicate-free names, looking a stage up by its own name
finds it. -/
theorem find_name_self (stages : List Stage) (hnd : (stageNames stages).Nodup)
    (s : Stage) (hs : s ∈ stages) :
    stages.find? (fun t => t.name = s.name) = some s := by
  induction stages with
  | nil => cases hs
  | cons a rest ih =>
      have hnds : a.name ∉ stageNames rest ∧ (stageNames rest).Nodup := by
        simpa [stageNames] using hnd
      rcases List.mem_cons.mp hs with he | hm
      · subst he
        simp [List.find?]
      · by_cases han : a.name = s.name
        · exact absurd (han ▸ List.mem_map.mpr ⟨s, hm, rfl⟩) hnds.1
        · simp only [List.find?]
          rw [show (decide (a.name = s.name)) = false by simp [han]]
          exact ih hnds.2 hm

/-- Helper: with duplicate-free names, `depsOf` at a stage's name gives its
dependency list. -/
theorem depsOf_self (stages : List Stage) (hnd : (stageNames stages).Nodup)
    (s : Stage) (hs : s ∈ stages) :
    depsOf stages s.name = s.dependencies := by
  unfold depsOf
  rw [find_name_self stages hnd s hs]

/-- C5. For every acyclic stage graph with distinct names and all dependency
names resolving to defined stages, the sorter returns a total order over all
stage names in which every stage's index strictly exceeds each of its
dependencies' indices. -/
theorem C5_topological_sort_correct (stages : List Stage)
    (hnd : (stageNames stages).Nodup)
    (hdeps : ∀ s ∈ stages, ∀ d ∈ s.dependencies, d ∈ stageNames stages)
    (hacyc : ∀ v, ¬ Relation.TransGen (depRel stages) v v) :
    ∃ order, topologicalSort stages = .ok order ∧ order.Nodup ∧
      (∀ n, n ∈ order ↔ n ∈ stageNames stages) ∧
      ∀ s ∈ stages, ∀ d ∈ s.dependencies,
        order.indexOf d < order.indexOf s.name := by
  obtain ⟨r2, indeg2, hinv, hcase⟩ := topoSort_cases stages hnd
  have hcomp := kahn_complete stages hdeps hacyc r2 indeg2 hinv
  have hlen : r2.length = (stageNames stages).length := by
    have h1 := (List.subperm_of_subset hinv.resNodup (fun x hx => hinv.resNS x hx)).length_le
    have h2 := (List.subperm_of_subset hnd (fun x hx => hcomp x hx)).length_le
    omega
  rcases hcase with ⟨-, heq⟩ | ⟨hne, -⟩
  · refine ⟨r2, heq, hinv.resNodup, fun n => ⟨fun h => hinv.resNS n h, fun h => hcomp n h⟩, ?_⟩
    intro s hs d hd
    have hdin : d ∈ depsOf stages s.name := by
      rw [depsOf_self stages hnd s hs]
      exact hd
    have hsin : s.name ∈ r2 := hcomp s.name (List.mem_map.mpr ⟨s, hs, rfl⟩)
    exact (depIdx stages r2 hinv.resNodup hinv.closed s.name d hsin hdin).2
  · exact absurd hlen hne

/-- Helper: the only dependency edge of the two-stage witness chain runs from
`A` to `B`. -/
theorem c5rel (u v : String) (h : depRel c5stages u v) : u = "A" ∧ v = "B" := by
  unfold depRel at h
  by_cases h2 : v = "B"
  · subst h2
    have hd : depsOf c5stages "B" = ["A"] := by rfl
    rw [hd] at h
    simp at h
    exact ⟨h, rfl⟩
  · exfalso
    by_cases h1 : v = "A"
    · subst h1
      have hd : depsOf c5stages "A" = [] := by rfl
      rw [hd] at h
      simp at h
    · have hd : depsOf c5stages v = [] := by
        unfold depsOf c5stages
        simp only [List.find?]
        rw [show (decide (("A" : String) = v)) = false by
              simp; exact fun he => h1 he.symm,
            show (decide (("B" : String) = v)) = false by
              simp; exact fun he => h2 he.symm]
      rw [hd] at h
      simp at h

/-- C5 witness: the hypotheses are satisfiable — the two-stage chain is
acyclic with defined dependencies and distinct names — and the sorter's order
satisfies the stated properties there. -/
theorem C5_witness :
    ∃ order, topologicalSort c5stages = .ok order ∧ order.Nodup ∧
      (∀ n, n ∈ order ↔ n ∈ stageNames c5stages) ∧
      ∀ s ∈ c5stages, ∀ d ∈ s.dependencies,
        order.indexOf d < order.indexOf s.name := by
  refine C5_topological_sort_correct c5stages (by decide) (by decide) ?_
  have hsteps : ∀ a b, Relation.TransGen (depRel c5stages) a b → a = "A" ∧ b = "B" := by
    intro a b h
    induction h with
    | single hstep => exact c5rel _ _ hstep
    | tail h1 hstep ih =>
        obtain ⟨hw1, hw2⟩ := c5rel _ _ hstep
        obtain ⟨ha, hw⟩ := ih
        rw [hw] at hw1
        exact absurd hw1 (by decide)
  intro v hv
  obtain ⟨h1, h2⟩ := hsteps v v hv
  rw [h1] at h2
  exact absurd h2 (by decide)

/-- Helper: when validation passes and the sorter fails, a single pass
surfaces the sorter error with no spawn. -/
theorem runPassOnce_sortError (env : WEnv) (wf : Workflow) (ctx : Ctx) (e : String)
    (hval : (validateWorkflow wf).1 = true)
    (hs : topologicalSort wf.stages = .error e) :
    runPassOnce env wf ctx = .done (.error e) 0 0 := by
  simp [runPassOnce, hval, hs]

/-- Helper: when validation passes and the sorter fails, the whole workflow
run surfaces the sorter error with zero spawns. -/
theorem executeWorkflow_sortError (env : WEnv) (wf : Workflow) (ctx : Ctx) (e : String)
    (hval : (validateWorkflow wf).1 = true)
    (hs : topologicalSort wf.stages = .error e) :
    executeWorkflow env wf ctx = (.error e, 0, 0) := by
  show executeWorkflowAux env wf (effMaxIterations wf + 1) ctx = _
  simp only [executeWorkflowAux, runPassOnce_sortError env wf ctx e hval hs]

/-- C6. For every stage graph with distinct names containing a dependency
cycle, the sorter fails with the circular-dependency error whose remaining
list names a stage on the cycle, returns no order, and any workflow run over
that graph surfaces the error with zero agent spawns. -/
theorem C6_cycle_detected (stages : List Stage) (hnd : (stageNames stages).Nodup)
    (v : String) (hv : v ∈ stageNames stages)
    (hcyc : Relation.TransGen (depRel stages) v v) :
    ∃ remaining, topologicalSort stages = .error (circularErrorMsg remaining) ∧
      v ∈ remaining ∧
      ∀ env wf ctx, wf.stages = stages → (validateWorkflow wf).1 = true →
        executeWorkflow env wf ctx = (.error (circularErrorMsg remaining), 0, 0) := by
  obtain ⟨r2, indeg2, hinv, hcase⟩ := topoSort_cases stages hnd
  have hvnot : v ∉ r2 := cycle_not_mem stages r2 hinv.resNodup hinv.closed v hcyc
  rcases hcase with ⟨hlen, -⟩ | ⟨-, herr⟩
  · exfalso
    have hsubp := List.subperm_of_subset hinv.resNodup (fun x hx => hinv.resNS x hx)
    have hperm := hsubp.perm_of_length_le (by omega)
    exact hvnot (hperm.mem_iff.mpr hv)
  · refine ⟨(stageNames stages).filter (fun n => !(r2.contains n)), herr, ?_, ?_⟩
    · simp only [List.mem_filter, Bool.not_eq_true']
      refine ⟨hv, ?_⟩
      simpa using hvnot
    · intro env wf ctx hwf hval
      exact executeWorkflow_sortError env wf ctx _ hval (by rw [hwf]; exact herr)

/-- C6 witness: the two-stage mutual cycle `X ↔ Y` triggers the error, names
`X` among the remaining stages, and (the workflow being otherwise valid) any
run over it fails with zero spawns. -/
theorem C6_witness :
    (∃ remaining, topologicalSort c6wf.stages = .error (circularErrorMsg remaining) ∧
      "X" ∈ remaining ∧
      ∀ env wf ctx, wf.stages = c6wf.stages → (validateWorkflow wf).1 = true →
        executeWorkflow env wf ctx = (.error (circularErrorMsg remaining), 0, 0)) ∧
    (validateWorkflow c6wf).1 = true :=
  ⟨C6_cycle_detected c6wf.stages (by decide) "X" (by decide)
      (Relation.TransGen.tail
        (Relation.TransGen.single (show depRel c6wf.stages "X" "Y" by unfold depRel; decide))
        (show depRel c6wf.stages "Y" "X" by unfold depRel; decide)),
    by decide⟩

/-- Helper: a dependency edge only points at a name that belongs to a defined
stage. -/
theorem depRel_target_mem (stages : List Stage) (u v : String) (h : depRel stages u v) :
    v ∈ stageNames stages := by
  unfold depRel depsOf at h
  split at h
  · next st hfind =>
      have hmem := List.mem_of_find?_eq_some hfind
      have hname : st.name = v := by
        have := List.find?_some hfind
        simpa using this
      unfold stageNames
      exact List.mem_map.mpr ⟨st, hmem, hname⟩
  · simp at h

/-- Helper: the target of a transitive dependency chain is a defined stage
name. -/
theorem transGen_target_mem (stages : List Stage) (f s : String)
    (h : Relation.TransGen (depRel stages) f s) : s ∈ stageNames stages := by
  induction h with
  | single hstep => exact depRel_target_mem stages _ _ hstep
  | tail h1 hstep ih => exact depRel_target_mem stages _ _ hstep

/-- Helper: with stop-on-error, a run that reports a failed stage stops right
at it — the order splits around the failed stage and every other name outside
the already-processed prefix keeps its incoming map entry (in particular,
starting from the empty map, it has none). -/
theorem runStages_stop (env : WEnv) (wf : Workflow) (iter : Nat) :
    ∀ order m0 sp0 m sp f,
      runStages env wf iter true order m0 none sp0 = (m, some f, sp) →
      ∃ pre post, order = pre ++ f :: post ∧
        ∀ s, s ∉ pre → s ≠ f → lookupSR m s = lookupSR m0 s := by
  intro order
  induction order with
  | nil =>
      intro m0 sp0 m sp f h
      simp only [runStages] at h
      simp at h
  | cons head rest ih =>
      intro m0 sp0 m sp f h
      simp only [runStages] at h
      split at h
      · simp at h
      · next stage hfind =>
          split at h
          · obtain ⟨pre', post', heq, hrest⟩ := ih _ _ _ _ _ h
            refine ⟨head :: pre', post', by rw [heq]; rfl, ?_⟩
            intro s hsp hsf
            have hsh : head ≠ s := by
              intro he
              exact hsp (he ▸ List.mem_cons_self head pre')
            have hsp' : s ∉ pre' := fun hm => hsp (List.mem_cons_of_mem _ hm)
            rw [hrest s hsp' hsf, lookupSR_set, if_neg hsh]
          · split at h
            · obtain ⟨pre', post', heq, hrest⟩ := ih _ _ _ _ _ h
              refine ⟨head :: pre', post', by rw [heq]; rfl, ?_⟩
              intro s hsp hsf
              have hsh : head ≠ s := by
                intro he
                exact hsp (he ▸ List.mem_cons_self head pre')
              have hsp' : s ∉ pre' := fun hm => hsp (List.mem_cons_of_mem _ hm)
              rw [hrest s hsp' hsf, lookupSR_set, if_neg hsh]
            · rw [if_pos trivial] at h
              simp only [Prod.mk.injEq, Option.some.injEq] at h
              obtain ⟨hm, hfh, -⟩ := h
              refine ⟨[], rest, by simp [hfh], ?_⟩
              intro s hsp hsf
              rw [← hm, lookupSR_set, if_neg ?_]
              intro he
              exact hsf (he ▸ hfh)

/-- C8. With stop-on-error in effect, a successful aggregate that reports a
failed stage has no entry for any stage placed after the failed one in the
execution order, and no transitive dependent of the failed stage has any
entry at all — in particular none ever reaches status complete. -/
theorem C8_stop_on_error_halts (env : WEnv) (wf : Workflow) (ctx : Ctx)
    (res : WorkflowResult) (f : String)
    (hnd : (stageNames wf.stages).Nodup)
    (hstop : effStopOnError wf = true)
    (hok : (executeWorkflow env wf ctx).1 = .ok res)
    (hf : res.failedStage = some f) :
    (∀ s, s ∈ res.executionOrder →
        res.executionOrder.indexOf f < res.executionOrder.indexOf s →
        lookupSR res.stages s = none) ∧
    (∀ s, Relation.TransGen (depRel wf.stages) f s →
        lookupSR res.stages s = none) := by
  obtain ⟨hvalT, order, sp2, hsort, hordEq, hrun⟩ :=
    aux_ok_shape env wf (effMaxIterations wf + 1) ctx res hok
  obtain ⟨hondup, hmemiff, hdc⟩ := topoSort_sound wf.stages hnd order hsort
  rw [hstop, hf] at hrun
  obtain ⟨pre, post, hsplit, hout⟩ :=
    runStages_stop env wf res.iteration.current order [] 0 res.stages sp2 f hrun
  have hnone : ∀ s, s ∉ pre → s ≠ f → lookupSR res.stages s = none := by
    intro s h1 h2
    rw [hout s h1 h2]
    rfl
  have hfpre : f ∉ pre := by
    rw [hsplit] at hondup
    simp [List.nodup_append] at hondup
    exact hondup.2.2.1
  have hidxf : order.indexOf f = pre.length := by
    rw [hsplit]
    exact indexOf_split pre post f hfpre
  rw [hordEq]
  constructor
  · intro s hs hidx
    apply hnone
    · intro hspre
      have h1 : order.indexOf s < pre.length := by
        rw [hsplit]
        exact indexOf_prefix_lt pre (f :: post) s hspre
      omega
    · intro hsf
      rw [hsf] at hidx
      exact absurd hidx (lt_irrefl _)
  · intro s htrans
    have hsns : s ∈ stageNames wf.stages := transGen_target_mem wf.stages f s htrans
    have hs : s ∈ order := (hmemiff s).mpr hsns
    obtain ⟨-, hlt⟩ := transDepIdx wf.stages order hondup hdc f s htrans hs
    apply hnone
    · intro hspre
      have h1 : order.indexOf s < pre.length := by
        rw [hsplit]
        exact indexOf_prefix_lt pre (f :: post) s hspre
      omega
    · intro hsf
      rw [hsf] at hlt
      exact absurd hlt (lt_irrefl _)

/-- C8 witness: in the chain `A ← B ← C` where `B` fails, stage `C` — a
direct dependent of the failed stage, placed after it — has no entry in the
aggregate. -/
theorem C8_witness : lookupSR c8result.stages "C" = none :=
  (C8_stop_on_error_halts cEnv8 cWf8 cCtx0 c8result "B" (by decide) (by decide) rfl rfl).2
    "C" (Relation.TransGen.single (show depRel cWf8.stages "B" "C" by unfold depRel; decide))
